import Mathlib

/-!
Verification development for the novella repository (Go backend for a
serialized-fiction platform).

The development shallowly embeds the in-memory store
(internal/store/store.go), the entity model (internal/model/model.go) and
the snapshot persistence layer (internal/store/persist.go).

Modelling conventions, stated once here and referenced by the individual
doc comments:

* Go `map[K]V` values are embedded as association lists `List (K × V)`.
  Insertion replaces the first binding of the key in place (or appends a
  fresh binding), deletion removes the bindings of the key, and reading a
  missing key yields the zero value, exactly as in Go.  Go map iteration
  order is unspecified; the model iterates in list order, and no theorem
  below depends on the iteration order of a map.
* `int64`/`int` are embedded as `Int` (no operation here can overflow:
  identifiers only ever increase by one from zero).
* `time.Time` values are embedded as `Nat` ticks; `time.Now()` results
  are threaded through the operations as explicit `now` arguments.
* `crypto/rand` outputs (`randomHex`) are threaded through as explicit
  `salt`/`token` arguments; on the Go side generation never fails in
  practice and the model treats it as total.
* The store is modelled in its in-memory mode (`dbPath == ""`), in which
  `persistLocked` always returns `nil`; the snapshot serialization itself
  is modelled separately for the round-trip analysis.
* `sort.Slice` is not code of this repository; per the Go standard
  library documentation it sorts the slice with the provided `less` and
  "is not guaranteed to be stable".  It is embedded by exactly that
  contract: a relation accepting every permutation of the input that is
  non-decreasing with respect to `less`.  Operations that do not sort are
  embedded as functions.
-/

/-! ## Association-list model of Go maps -/

/-- Lookup in a Go map embedded as an association list. -/
def mapLookup [DecidableEq K] : List (K × V) → K → Option V
  | [], _ => none
  | (k', v) :: rest, k => if k = k' then some v else mapLookup rest k

/-- Go map assignment `m[k] = v`: replace the first binding of `k` in
place, or append a fresh binding. -/
def mapInsert [DecidableEq K] : List (K × V) → K → V → List (K × V)
  | [], k, v => [(k, v)]
  | (k', v') :: rest, k, v =>
    if k = k' then (k, v) :: rest else (k', v') :: mapInsert rest k v

/-- Go `delete(m, k)`: remove the bindings of `k`. -/
def mapErase [DecidableEq K] : List (K × V) → K → List (K × V)
  | [], _ => []
  | (k', v') :: rest, k =>
    if k = k' then mapErase rest k else (k', v') :: mapErase rest k

/-- Remove the first occurrence of `x` from a list of ids; embeds the Go
loop `for i := range ids ... append(ids[:i], ids[i+1:]...); break`. -/
def removeFirst [DecidableEq K] : List K → K → List K
  | [], _ => []
  | y :: rest, x => if y = x then rest else y :: removeFirst rest x

/-- Fold of Go `delete` over a list of keys (the cascading-delete loops in
`DeleteNovel`). -/
def removeKeys [DecidableEq K] (m : List (K × V)) (ids : List K) : List (K × V) :=
  ids.foldl (fun acc k => mapErase acc k) m

@[simp] theorem mapLookup_nil [DecidableEq K] (k : K) :
    mapLookup ([] : List (K × V)) k = none := rfl

@[simp] theorem mapLookup_cons [DecidableEq K] (k1 : K) (v1 : V) (rest : List (K × V)) (k : K) :
    mapLookup ((k1, v1) :: rest) k = if k = k1 then some v1 else mapLookup rest k := rfl

@[simp] theorem mapInsert_cons [DecidableEq K] (k1 : K) (v1 : V) (rest : List (K × V)) (k : K) (v : V) :
    mapInsert ((k1, v1) :: rest) k v =
      if k = k1 then (k, v) :: rest else (k1, v1) :: mapInsert rest k v := rfl

@[simp] theorem mapErase_cons [DecidableEq K] (k1 : K) (v1 : V) (rest : List (K × V)) (k : K) :
    mapErase ((k1, v1) :: rest) k =
      if k = k1 then mapErase rest k else (k1, v1) :: mapErase rest k := rfl

@[simp] theorem removeFirst_cons [DecidableEq K] (z : K) (rest : List K) (x : K) :
    removeFirst (z :: rest) x = if z = x then rest else z :: removeFirst rest x := rfl

@[simp] theorem removeKeys_nil [DecidableEq K] (m : List (K × V)) :
    removeKeys m ([] : List K) = m := rfl

@[simp] theorem removeKeys_cons [DecidableEq K] (m : List (K × V)) (i : K) (rest : List K) :
    removeKeys m (i :: rest) = removeKeys (mapErase m i) rest := rfl

theorem mapLookup_insert_self [DecidableEq K] (m : List (K × V)) (k : K) (v : V) :
    mapLookup (mapInsert m k v) k = some v := by
  induction m with
  | nil => simp [mapInsert, mapLookup]
  | cons kv rest ih =>
    obtain ⟨k1, v1⟩ := kv
    by_cases h : k = k1
    · simp [h]
    · simp [h, ih]

theorem mapLookup_insert_ne [DecidableEq K] (m : List (K × V)) (k k' : K) (v : V)
    (h : k' ≠ k) : mapLookup (mapInsert m k v) k' = mapLookup m k' := by
  induction m with
  | nil => simp [mapInsert, mapLookup, h]
  | cons kv rest ih =>
    obtain ⟨k1, v1⟩ := kv
    by_cases hk : k = k1
    · subst hk; simp [h]
    · by_cases hk' : k' = k1
      · simp [hk, hk']
      · simp [hk, hk', ih]

theorem mapLookup_erase [DecidableEq K] (m : List (K × V)) (k k' : K) :
    mapLookup (mapErase m k) k' = if k' = k then none else mapLookup m k' := by
  induction m with
  | nil => simp [mapErase, mapLookup]
  | cons kv rest ih =>
    obtain ⟨k1, v1⟩ := kv
    by_cases hk : k = k1
    · rw [mapErase_cons, if_pos hk, ih]
      by_cases hk' : k' = k
      · simp [hk']
      · have h2 : k' ≠ k1 := fun h => hk' (by rw [h, ← hk])
        simp [hk', h2]
    · rw [mapErase_cons, if_neg hk]
      by_cases hk' : k' = k1
      · have hne : k' ≠ k := fun h => hk (by rw [← h, hk'])
        have h3 : ¬ k1 = k := fun h => hne (hk'.trans h)
        simp [hk', hne, h3]
      · simp [hk', ih]

theorem mapLookup_removeKeys [DecidableEq K] (m : List (K × V)) (ids : List K) (k : K) :
    mapLookup (removeKeys m ids) k = if k ∈ ids then none else mapLookup m k := by
  induction ids generalizing m with
  | nil => simp
  | cons i rest ih =>
    rw [removeKeys_cons, ih]
    by_cases h : k ∈ rest
    · simp [h]
    · by_cases hik : k = i
      · simp [h, hik, mapLookup_erase]
      · simp [h, hik, mapLookup_erase]

theorem mem_mapInsert [DecidableEq K] (m : List (K × V)) (k : K) (v : V)
    (kv : K × V) (h : kv ∈ mapInsert m k v) : kv = (k, v) ∨ kv ∈ m := by
  induction m with
  | nil => simpa [mapInsert] using h
  | cons kv' rest ih =>
    obtain ⟨k1, v1⟩ := kv'
    by_cases hk : k = k1
    · subst hk
      rcases List.mem_cons.mp (by simpa using h) with h1 | h1
      · exact Or.inl h1
      · exact Or.inr (List.mem_cons_of_mem _ h1)
    · rcases List.mem_cons.mp (by simpa [hk] using h) with h1 | h1
      · exact Or.inr (h1 ▸ List.mem_cons_self _ _)
      · rcases ih h1 with h2 | h2
        · exact Or.inl h2
        · exact Or.inr (List.mem_cons_of_mem _ h2)

theorem keysNodup_mapInsert [DecidableEq K] (m : List (K × V)) (k : K) (v : V)
    (h : (m.map Prod.fst).Nodup) : ((mapInsert m k v).map Prod.fst).Nodup := by
  induction m with
  | nil => simp [mapInsert]
  | cons kv rest ih =>
    obtain ⟨k1, v1⟩ := kv
    by_cases hk : k = k1
    · subst hk; simpa using h
    · simp only [List.map_cons, List.nodup_cons] at h
      rw [mapInsert_cons, if_neg hk]
      refine List.nodup_cons.mpr ⟨?_, ih h.2⟩
      intro hmem
      rcases List.mem_map.mp hmem with ⟨kv', hkv', hfst⟩
      rcases mem_mapInsert rest k v kv' hkv' with h1 | h1
      · exact hk (by simpa [h1] using hfst)
      · exact h.1 (List.mem_map.mpr ⟨kv', h1, hfst⟩)

theorem mem_removeFirst [DecidableEq K] (l : List K) (x y : K)
    (h : y ∈ removeFirst l x) : y ∈ l := by
  induction l with
  | nil => simpa [removeFirst] using h
  | cons z rest ih =>
    by_cases hz : z = x
    · exact List.mem_cons_of_mem _ (by simpa [hz] using h)
    · rcases List.mem_cons.mp (by simpa [hz] using h) with h1 | h1
      · exact h1 ▸ List.mem_cons_self _ _
      · exact List.mem_cons_of_mem _ (ih h1)

theorem nodup_removeFirst [DecidableEq K] (l : List K) (x : K)
    (h : l.Nodup) : (removeFirst l x).Nodup := by
  induction l with
  | nil => simpa [removeFirst] using h
  | cons z rest ih =>
    rcases List.nodup_cons.mp h with ⟨hz, hrest⟩
    by_cases hzx : z = x
    · simpa [hzx] using hrest
    · rw [removeFirst_cons, if_neg hzx]
      exact List.nodup_cons.mpr
        ⟨fun hmem => hz (mem_removeFirst rest x z hmem), ih hrest⟩

theorem not_mem_removeFirst [DecidableEq K] (l : List K) (x : K)
    (h : l.Nodup) : x ∉ removeFirst l x := by
  induction l with
  | nil => simp [removeFirst]
  | cons z rest ih =>
    rcases List.nodup_cons.mp h with ⟨hz, hrest⟩
    by_cases hzx : z = x
    · subst hzx; simpa using hz
    · intro hmem
      rcases List.mem_cons.mp (by simpa [hzx] using hmem) with h1 | h1
      · exact hzx h1.symm
      · exact ih hrest h1

theorem mem_removeFirst_of_ne [DecidableEq K] (l : List K) (x y : K)
    (hy : y ∈ l) (hne : y ≠ x) : y ∈ removeFirst l x := by
  induction l with
  | nil => simp at hy
  | cons z rest ih =>
    by_cases hzx : z = x
    · subst hzx
      rcases List.mem_cons.mp hy with h1 | h1
      · exact absurd h1 hne
      · simpa using h1
    · rcases List.mem_cons.mp hy with h1 | h1
      · simp [hzx, h1]
      · simp [hzx, ih h1]

/-! ## String helpers (internal/store/store.go lines 76-91) -/

/-- Whitespace test used by the model of `strings.TrimSpace`.  Go uses
`unicode.IsSpace`; the model covers the ASCII whitespace characters,
which is all the concrete inputs below use. -/
def isSpaceGo (c : Char) : Bool :=
  c = ' ' ∨ c = '\t' ∨ c = '\n' ∨ c = '\r'

/-- Model of Go `strings.ToLower` (ASCII range; Go additionally lowers
non-ASCII letters, which no theorem below depends on). -/
def toLowerStr (s : String) : String :=
  String.mk (s.toList.map Char.toLower)

/-- Model of Go `strings.TrimSpace`: drop leading and trailing
whitespace. -/
def trimSpace (s : String) : String :=
  String.mk (((s.toList.dropWhile isSpaceGo).reverse.dropWhile isSpaceGo).reverse)

/-- `normalize` from store.go line 76 (named `normalizeGo` here because Mathlib already declares `normalize`): `strings.TrimSpace(strings.ToLower(input))`. -/
def normalizeGo (input : String) : String :=
  trimSpace (toLowerStr input)

/-- `needle` occurs as a contiguous run at the head of `hay`. -/
def leadMatch : List Char → List Char → Bool
  | [], _ => true
  | _ :: _, [] => false
  | a :: as, b :: bs => a = b && leadMatch as bs

/-- Model of Go `strings.Contains hay needle` (substring occurrence). -/
def subMatch (needle hay : List Char) : Bool :=
  match hay with
  | [] => needle.isEmpty
  | _ :: rest => leadMatch needle hay || subMatch needle rest

/-- Model of `strings.Contains` on `String`. -/
def containsStr (hay needle : String) : Bool :=
  subMatch needle.toList hay.toList

/-- Model of `hashPassword` (store.go line 80): the Go code stores the
hex-encoded SHA-256 digest of `salt + ":" + password`.  The digest
function itself is abstracted as an injective pairing of the same
preimage string; every theorem below depends only on which inputs are
hashed, never on the digest bytes. -/
def hashPassword (salt password : String) : String :=
  "sha256<" ++ salt ++ ":" ++ password ++ ">"

/-! ## Entity model (internal/model/model.go) -/

/-- `model.User`.  `passwordSalt` and `passwordHash` carry the JSON tag
`json:"-"` in the source; see the persistence model below. -/
structure User where
  id : Int
  username : String
  email : String
  passwordSalt : String
  passwordHash : String
  createdAt : Nat
deriving Repr, DecidableEq

/-- `model.NovelStatus` is a string type in the source; arbitrary strings
can reach the store through the JSON decoder, so it is embedded as
`String`. -/
abbrev NovelStatus := String

/-- `model.NovelDraft`. -/
def novelDraft : NovelStatus := "draft"

/-- `model.NovelPublished`. -/
def novelPublished : NovelStatus := "published"

/-- `model.Novel`. -/
structure Novel where
  id : Int
  authorID : Int
  title : String
  description : String
  genre : String
  status : NovelStatus
  createdAt : Nat
  updatedAt : Nat
deriving Repr, DecidableEq

/-- `model.Chapter`. -/
structure Chapter where
  id : Int
  novelID : Int
  title : String
  content : String
  position : Int
  createdAt : Nat
  updatedAt : Nat
deriving Repr, DecidableEq

/-- `model.Comment`. -/
structure Comment where
  id : Int
  novelID : Int
  chapterID : Option Int
  userID : Int
  body : String
  createdAt : Nat
deriving Repr, DecidableEq

/-- `model.Bookmark`. -/
structure Bookmark where
  userID : Int
  novelID : Int
  chapterID : Option Int
  updatedAt : Nat
  chapterPos : Option Int
deriving Repr, DecidableEq

/-- Go zero value of `model.User` (read of a missing map key). -/
def zeroUser : User :=
  { id := 0, username := "", email := "", passwordSalt := "", passwordHash := "", createdAt := 0 }

/-- Go zero value of `model.Chapter` (read of a missing map key). -/
def zeroChapter : Chapter :=
  { id := 0, novelID := 0, title := "", content := "", position := 0, createdAt := 0, updatedAt := 0 }

/-- Go zero value of `model.Comment` (read of a missing map key). -/
def zeroComment : Comment :=
  { id := 0, novelID := 0, chapterID := none, userID := 0, body := "", createdAt := 0 }

/-- The error outcomes a store operation can produce.  `unauthorized`
is `store.ErrUnauthorized`, which the HTTP layer maps to 403 Forbidden
(the ForbiddenError of the specification); `validation` carries the
message of a `fmt.Errorf` validation failure. -/
inductive StoreErr where
  | notFound
  | conflict
  | unauthorized
  | validation (msg : String)
deriving Repr, DecidableEq

/-- The table set of `store.Store` (store.go lines 23-46), minus the
mutex and the snapshot path, which do not carry entity state. -/
structure StoreState where
  usersByID : List (Int × User)
  usersByEmail : List (String × Int)
  usersByUsername : List (String × Int)
  novelsByID : List (Int × Novel)
  chaptersByID : List (Int × Chapter)
  chapterIDsByNovel : List (Int × List Int)
  commentsByID : List (Int × Comment)
  commentIDsByNovel : List (Int × List Int)
  bookmarks : List (String × Bookmark)
  sessions : List (String × Int)
  nextUserID : Int
  nextNovelID : Int
  nextChapterID : Int
  nextCommentID : Int
deriving Repr, DecidableEq

/-- The empty store produced by `store.New()`. -/
def emptyStore : StoreState :=
  { usersByID := [], usersByEmail := [], usersByUsername := [],
    novelsByID := [], chaptersByID := [], chapterIDsByNovel := [],
    commentsByID := [], commentIDsByNovel := [], bookmarks := [],
    sessions := [], nextUserID := 0, nextNovelID := 0,
    nextChapterID := 0, nextCommentID := 0 }

/-! ## Mutating store operations (store.go)

Each operation takes the pre-state plus the call arguments (with clock
and randomness threaded explicitly, see the header) and returns either a
`StoreErr` or the result paired with the post-state.  The Go code
returns the error before any mutation in every path (`persistLocked` is
`nil` in in-memory mode), so `Except` with an unchanged state on error
is exact. -/

/-- `Store.Register` (store.go lines 93-135). -/
def register (s : StoreState) (username email password salt token : String) (now : Nat) :
    Except StoreErr (User × StoreState) :=
  let u := normalizeGo username
  let e := normalizeGo email
  if u = "" ∨ e = "" ∨ password = "" then
    .error (.validation "username, email, and password are required")
  else if (mapLookup s.usersByUsername u).isSome then .error .conflict
  else if (mapLookup s.usersByEmail e).isSome then .error .conflict
  else
    let uid := s.nextUserID + 1
    let user : User :=
      { id := uid, username := trimSpace username, email := trimSpace email,
        passwordSalt := salt, passwordHash := hashPassword salt password, createdAt := now }
    .ok (user,
      { s with
        nextUserID := uid,
        usersByID := mapInsert s.usersByID uid user,
        usersByEmail := mapInsert s.usersByEmail e uid,
        usersByUsername := mapInsert s.usersByUsername u uid,
        sessions := mapInsert s.sessions token uid })

/-- `Store.Login` (store.go lines 137-158).  `s.usersByID[uid]` is a Go
map read whose missing-key case yields the zero value. -/
def login (s : StoreState) (email password token : String) :
    Except StoreErr (User × StoreState) :=
  match mapLookup s.usersByEmail (normalizeGo email) with
  | none => .error .unauthorized
  | some uid =>
    let user := (mapLookup s.usersByID uid).getD zeroUser
    if user.passwordHash ≠ hashPassword user.passwordSalt password then .error .unauthorized
    else .ok (user, { s with sessions := mapInsert s.sessions token user.id })

/-- `Store.CreateNovel` (store.go lines 175-205). -/
def createNovel (s : StoreState) (authorID : Int) (title description genre : String)
    (status : NovelStatus) (now : Nat) : Except StoreErr (Novel × StoreState) :=
  let status := if status = "" then novelDraft else status
  if status ≠ novelDraft ∧ status ≠ novelPublished then .error (.validation "invalid status")
  else if trimSpace title = "" then .error (.validation "title is required")
  else
    let nid := s.nextNovelID + 1
    let n : Novel :=
      { id := nid, authorID := authorID, title := trimSpace title,
        description := trimSpace description, genre := trimSpace genre,
        status := status, createdAt := now, updatedAt := now }
    .ok (n, { s with nextNovelID := nid, novelsByID := mapInsert s.novelsByID nid n })

/-- `Store.NovelByID` (store.go lines 240-252). -/
def novelByID (s : StoreState) (id requesterID : Int) : Except StoreErr Novel :=
  match mapLookup s.novelsByID id with
  | none => .error .notFound
  | some n =>
    if n.status ≠ novelPublished ∧ n.authorID ≠ requesterID then .error .unauthorized
    else .ok n

/-- `Store.UpdateNovel` (store.go lines 254-286).  Field updates follow
the source order (title, description, genre, status); an invalid status
aborts before the table write, so the state is unchanged on error. -/
def updateNovel (s : StoreState) (id requesterID : Int) (title description genre : String)
    (status : Option NovelStatus) (now : Nat) : Except StoreErr (Novel × StoreState) :=
  match mapLookup s.novelsByID id with
  | none => .error .notFound
  | some n =>
    if n.authorID ≠ requesterID then .error .unauthorized
    else
      let n := if trimSpace title ≠ "" then { n with title := trimSpace title } else n
      let n := if description ≠ "" then { n with description := trimSpace description } else n
      let n := if genre ≠ "" then { n with genre := trimSpace genre } else n
      match status with
      | some st =>
        if st ≠ novelDraft ∧ st ≠ novelPublished then .error (.validation "invalid status")
        else
          let n := { n with status := st, updatedAt := now }
          .ok (n, { s with novelsByID := mapInsert s.novelsByID id n })
      | none =>
        let n := { n with updatedAt := now }
        .ok (n, { s with novelsByID := mapInsert s.novelsByID id n })

/-- `Store.DeleteNovel` (store.go lines 288-317): cascading delete of
the chapters and comments listed in the per-novel id lists, the lists
themselves, and every bookmark whose novel id matches. -/
def deleteNovel (s : StoreState) (id requesterID : Int) : Except StoreErr StoreState :=
  match mapLookup s.novelsByID id with
  | none => .error .notFound
  | some n =>
    if n.authorID ≠ requesterID then .error .unauthorized
    else
      .ok { s with
        novelsByID := mapErase s.novelsByID id,
        chaptersByID := removeKeys s.chaptersByID ((mapLookup s.chapterIDsByNovel id).getD []),
        chapterIDsByNovel := mapErase s.chapterIDsByNovel id,
        commentsByID := removeKeys s.commentsByID ((mapLookup s.commentIDsByNovel id).getD []),
        commentIDsByNovel := mapErase s.commentIDsByNovel id,
        bookmarks := s.bookmarks.filter (fun kv => !(kv.2.novelID == id)) }

/-- `Store.CreateChapter` (store.go lines 319-355).  A non-positive
position is replaced by `len(s.chapterIDsByNovel[novelID]) + 1`; the
parent novel gets a fresh update stamp. -/
def createChapter (s : StoreState) (novelID requesterID : Int) (title content : String)
    (position : Int) (now : Nat) : Except StoreErr (Chapter × StoreState) :=
  match mapLookup s.novelsByID novelID with
  | none => .error .notFound
  | some n =>
    if n.authorID ≠ requesterID then .error .unauthorized
    else if trimSpace title = "" then .error (.validation "title is required")
    else
      let cid := s.nextChapterID + 1
      let ids := (mapLookup s.chapterIDsByNovel novelID).getD []
      let pos := if position ≤ 0 then (ids.length : Int) + 1 else position
      let ch : Chapter :=
        { id := cid, novelID := novelID, title := trimSpace title,
          content := content, position := pos, createdAt := now, updatedAt := now }
      .ok (ch, { s with
        nextChapterID := cid,
        chaptersByID := mapInsert s.chaptersByID cid ch,
        chapterIDsByNovel := mapInsert s.chapterIDsByNovel novelID (ids ++ [cid]),
        novelsByID := mapInsert s.novelsByID novelID { n with updatedAt := now } })

/-- The partial field updates of `Store.UpdateChapter` (store.go lines
404-413): empty title/content and non-positive position leave the field
unchanged; the update stamp is always refreshed. -/
def applyChapterUpdate (ch : Chapter) (title content : String) (position : Int) (now : Nat) : Chapter :=
  let ch := if trimSpace title ≠ "" then { ch with title := trimSpace title } else ch
  let ch := if content ≠ "" then { ch with content := content } else ch
  let ch := if position > 0 then { ch with position := position } else ch
  { ch with updatedAt := now }

/-- `Store.UpdateChapter` (store.go lines 389-421).  Note the source
order: the parent novel is looked up first, then ownership is checked,
and only then the chapter itself is looked up. -/
def updateChapter (s : StoreState) (novelID chapterID requesterID : Int)
    (title content : String) (position : Int) (now : Nat) :
    Except StoreErr (Chapter × StoreState) :=
  match mapLookup s.novelsByID novelID with
  | none => .error .notFound
  | some n =>
    if n.authorID ≠ requesterID then .error .unauthorized
    else
      match mapLookup s.chaptersByID chapterID with
      | none => .error .notFound
      | some ch =>
        if ch.novelID ≠ novelID then .error .notFound
        else
          let ch := applyChapterUpdate ch title content position now
          .ok (ch, { s with
            chaptersByID := mapInsert s.chaptersByID chapterID ch,
            novelsByID := mapInsert s.novelsByID novelID { n with updatedAt := now } })

/-- `Store.DeleteChapter` (store.go lines 423-457).  The chapter is
removed from the table and (first occurrence) from the per-novel id
list; bookmarks pointing at it have their chapter reference and
snapshotted position cleared.  The id-list write only happens when the
id is found in the list, as in the source loop. -/
def deleteChapter (s : StoreState) (novelID chapterID requesterID : Int) :
    Except StoreErr StoreState :=
  match mapLookup s.novelsByID novelID with
  | none => .error .notFound
  | some n =>
    if n.authorID ≠ requesterID then .error .unauthorized
    else
      match mapLookup s.chaptersByID chapterID with
      | none => .error .notFound
      | some ch =>
        if ch.novelID ≠ novelID then .error .notFound
        else
          let ids := (mapLookup s.chapterIDsByNovel novelID).getD []
          .ok { s with
            chaptersByID := mapErase s.chaptersByID chapterID,
            chapterIDsByNovel :=
              if chapterID ∈ ids then
                mapInsert s.chapterIDsByNovel novelID (removeFirst ids chapterID)
              else s.chapterIDsByNovel,
            bookmarks := s.bookmarks.map (fun kv =>
              if kv.2.novelID = novelID ∧ kv.2.chapterID = some chapterID then
                (kv.1, { kv.2 with chapterID := none, chapterPos := none })
              else kv) }

/-- The comment construction and table writes shared by both branches of
`Store.CreateComment` (store.go lines 479-489). -/
def commentInsert (s : StoreState) (novelID : Int) (chapterID : Option Int) (userID : Int)
    (body : String) (now : Nat) : Comment × StoreState :=
  let cmid := s.nextCommentID + 1
  let cm : Comment :=
    { id := cmid, novelID := novelID, chapterID := chapterID, userID := userID,
      body := trimSpace body, createdAt := now }
  (cm, { s with
    nextCommentID := cmid,
    commentsByID := mapInsert s.commentsByID cmid cm,
    commentIDsByNovel := mapInsert s.commentIDsByNovel novelID
      (((mapLookup s.commentIDsByNovel novelID).getD []) ++ [cmid]) })

/-- `Store.CreateComment` (store.go lines 459-494): body validation,
novel lookup, draft visibility, then (when a chapter id is supplied) the
chapter must exist and belong to the stated novel. -/
def createComment (s : StoreState) (novelID : Int) (chapterID : Option Int) (userID : Int)
    (body : String) (now : Nat) : Except StoreErr (Comment × StoreState) :=
  if trimSpace body = "" then .error (.validation "body is required")
  else
    match mapLookup s.novelsByID novelID with
    | none => .error .notFound
    | some n =>
      if n.status ≠ novelPublished ∧ n.authorID ≠ userID then .error .unauthorized
      else
        match chapterID with
        | some cid =>
          match mapLookup s.chaptersByID cid with
          | none => .error .notFound
          | some ch =>
            if ch.novelID ≠ novelID then .error .notFound
            else .ok (commentInsert s novelID chapterID userID body now)
        | none => .ok (commentInsert s novelID chapterID userID body now)

/-- `bookmarkKey` (store.go line 521): `fmt.Sprintf("%d:%d", userID, novelID)`. -/
def bookmarkKey (userID novelID : Int) : String :=
  toString userID ++ ":" ++ toString novelID

/-- `Store.UpsertBookmark` (store.go lines 525-557): draft visibility on
the novel, validation that a supplied chapter belongs to the novel, and
a write at `bookmarkKey(userID, novelID)` storing a point-in-time copy
of the chapter position. -/
def upsertBookmark (s : StoreState) (userID novelID : Int) (chapterID : Option Int)
    (now : Nat) : Except StoreErr (Bookmark × StoreState) :=
  match mapLookup s.novelsByID novelID with
  | none => .error .notFound
  | some n =>
    if n.status ≠ novelPublished ∧ n.authorID ≠ userID then .error .unauthorized
    else
      match chapterID with
      | some cid =>
        match mapLookup s.chaptersByID cid with
        | none => .error .notFound
        | some ch =>
          if ch.novelID ≠ novelID then .error .notFound
          else
            let b : Bookmark :=
              { userID := userID, novelID := novelID, chapterID := chapterID,
                updatedAt := now, chapterPos := some ch.position }
            .ok (b, { s with bookmarks := mapInsert s.bookmarks (bookmarkKey userID novelID) b })
      | none =>
        let b : Bookmark :=
          { userID := userID, novelID := novelID, chapterID := none,
            updatedAt := now, chapterPos := none }
        .ok (b, { s with bookmarks := mapInsert s.bookmarks (bookmarkKey userID novelID) b })

/-! ## Read and list operations

`ListNovels`, `ListChapters` and `ListComments` end in `sort.Slice`,
which the Go standard library documents as sorting with the given
`less` while "not guaranteed to be stable".  Each listing is therefore
embedded as a relation between the call and its possible outputs: the
deterministic part (lookups, authorization, the gather loop) is a
function translated from the source, and the final sort admits every
permutation of the gathered slice that is non-decreasing with respect
to the comparison closure passed in the source. -/

/-- The documented postcondition of `sort.Slice data less`: the output
is a permutation of the input in which no adjacent pair is strictly
out of order. -/
def sortSliceOK (less : α → α → Bool) (input output : List α) : Prop :=
  input.Perm output ∧ output.Chain' (fun a b => less b a = false)

/-- Comparison closure of `ListChapters` (store.go line 372):
`res[i].Position < res[j].Position`. -/
def chapterLess (a b : Chapter) : Bool :=
  decide (a.position < b.position)

/-- Comparison closure of `ListComments` (store.go line 517):
`res[i].CreatedAt.Before(res[j].CreatedAt)`. -/
def commentLess (a b : Comment) : Bool :=
  decide (a.createdAt < b.createdAt)

/-- Comparison closure of `ListNovels` (store.go line 228):
`result[i].UpdatedAt.After(result[j].UpdatedAt)`. -/
def novelMoreRecent (a b : Novel) : Bool :=
  decide (b.updatedAt < a.updatedAt)

/-- The gather loop of `ListChapters` (store.go lines 368-371): the
chapters of the per-novel id list, in list order, each read from the
chapter table with Go zero-value semantics for a missing key. -/
def chaptersGather (s : StoreState) (novelID : Int) : List Chapter :=
  ((mapLookup s.chapterIDsByNovel novelID).getD []).map
    (fun cid => (mapLookup s.chaptersByID cid).getD zeroChapter)

/-- `Store.ListChapters` (store.go lines 357-374) as an outcome
relation. -/
def listChaptersRel (s : StoreState) (novelID requesterID : Int)
    (out : Except StoreErr (List Chapter)) : Prop :=
  match mapLookup s.novelsByID novelID with
  | none => out = .error .notFound
  | some n =>
    if n.status ≠ novelPublished ∧ n.authorID ≠ requesterID then
      out = .error .unauthorized
    else
      match out with
      | .ok l => sortSliceOK chapterLess (chaptersGather s novelID) l
      | .error _ => False

/-- The linear scan of `Store.ChapterByID` (store.go lines 381-386):
first chapter with the requested id, else `ErrNotFound`. -/
def findChapter (l : List Chapter) (chapterID : Int) : Except StoreErr Chapter :=
  match l with
  | [] => .error .notFound
  | ch :: rest => if ch.id = chapterID then .ok ch else findChapter rest chapterID

/-- `Store.ChapterByID` (store.go lines 376-387) as an outcome relation:
it forwards any `ListChapters` error and otherwise scans the listed
chapters. -/
def chapterByIDRel (s : StoreState) (novelID chapterID requesterID : Int)
    (out : Except StoreErr Chapter) : Prop :=
  (∃ e, listChaptersRel s novelID requesterID (.error e) ∧ out = .error e) ∨
  (∃ l, listChaptersRel s novelID requesterID (.ok l) ∧ out = findChapter l chapterID)

/-- The gather loop of `ListComments` (store.go lines 507-516): comments
of the per-novel id list in list order (zero value for a missing key),
keeping, when a chapter filter is present, exactly the comments whose
chapter id equals the filter. -/
def commentsGather (s : StoreState) (novelID : Int) (chapterID : Option Int) : List Comment :=
  (((mapLookup s.commentIDsByNovel novelID).getD []).map
    (fun cmid => (mapLookup s.commentsByID cmid).getD zeroComment)).filter
    (fun c => match chapterID with
      | none => true
      | some cid => c.chapterID == some cid)

/-- `Store.ListComments` (store.go lines 496-519) as an outcome
relation. -/
def listCommentsRel (s : StoreState) (novelID requesterID : Int) (chapterID : Option Int)
    (out : Except StoreErr (List Comment)) : Prop :=
  match mapLookup s.novelsByID novelID with
  | none => out = .error .notFound
  | some n =>
    if n.status ≠ novelPublished ∧ n.authorID ≠ requesterID then
      out = .error .unauthorized
    else
      match out with
      | .ok l => sortSliceOK commentLess (commentsGather s novelID chapterID) l
      | .error _ => False

/-- The filter loop of `ListNovels` (store.go lines 211-227): keep a
novel unless the author filter, the draft rule, or the query filter
rejects it.  The iteration order of `s.novelsByID` is unspecified in Go;
the model iterates in table order and no theorem depends on it. -/
def novelsFilter (s : StoreState) (query : String) (authorID : Int) (includeDrafts : Bool)
    (requesterID : Int) : List Novel :=
  let q := normalizeGo query
  (s.novelsByID.map Prod.snd).filter (fun n =>
    !(decide (authorID > 0) && !(n.authorID == authorID)) &&
    !(!includeDrafts && !(n.status == novelPublished) && !(n.authorID == requesterID)) &&
    (q == "" || containsStr (normalizeGo (n.title ++ " " ++ n.description ++ " " ++ n.genre)) q))

/-- The pagination tail of `ListNovels` (store.go lines 230-237).
`result[offset:]` with `offset > len(result)` already ruled out panics
exactly when `offset < 0`; the panic outcome is `none`.  A positive
`limit` smaller than the remaining length truncates. -/
def novelsSlice (l : List Novel) (limit offset : Int) : Option (List Novel) :=
  if offset > (l.length : Int) then some []
  else if offset < 0 then none
  else
    let rest := l.drop offset.toNat
    some (if limit > 0 ∧ limit < (rest.length : Int) then rest.take limit.toNat else rest)

/-- `Store.ListNovels` (store.go lines 207-238) as an outcome relation:
filter, sort (by the `sort.Slice` contract, descending update time),
then paginate; `none` is the panic outcome of the slice expression. -/
def listNovelsRel (s : StoreState) (query : String) (authorID : Int) (includeDrafts : Bool)
    (requesterID : Int) (limit offset : Int) (out : Option (List Novel)) : Prop :=
  ∃ sorted, sortSliceOK novelMoreRecent (novelsFilter s query authorID includeDrafts requesterID) sorted ∧
    out = novelsSlice sorted limit offset

/-! ## Snapshot persistence model (internal/store/persist.go)

`persistLocked` marshals the `persistentState` record with
`encoding/json`; `loadLocked` unmarshals it back.  At the level of the
table set this is the identity on every field except the users table:
`model.User.PasswordSalt` and `model.User.PasswordHash` carry the JSON
tag `json:"-"` (model.go lines 9-10), so they are omitted on save and
zero-valued on load.  The wire form of a user is therefore a record
without those two fields; every other entity marshals all of its
fields.  (Go map iteration order does not affect a marshalled JSON
object, and the nil-table guards of `loadLocked` are invisible here because
`persistLocked` always writes every table.) -/

/-- The fields of `model.User` that actually reach the snapshot file. -/
structure UserWire where
  id : Int
  username : String
  email : String
  createdAt : Nat
deriving Repr, DecidableEq

/-- Marshalling a user: drop the `json:"-"` fields. -/
def userToWire (u : User) : UserWire :=
  { id := u.id, username := u.username, email := u.email, createdAt := u.createdAt }

/-- Unmarshalling a user: the omitted fields come back as Go zero
values. -/
def userOfWire (w : UserWire) : User :=
  { id := w.id, username := w.username, email := w.email,
    passwordSalt := "", passwordHash := "", createdAt := w.createdAt }

/-- The snapshot document (`persistentState`, persist.go lines 11-26). -/
structure PersistState where
  usersByID : List (Int × UserWire)
  usersByEmail : List (String × Int)
  usersByUsername : List (String × Int)
  novelsByID : List (Int × Novel)
  chaptersByID : List (Int × Chapter)
  chapterIDsByNovel : List (Int × List Int)
  commentsByID : List (Int × Comment)
  commentIDsByNovel : List (Int × List Int)
  bookmarks : List (String × Bookmark)
  sessions : List (String × Int)
  nextUserID : Int
  nextNovelID : Int
  nextChapterID : Int
  nextCommentID : Int
deriving Repr, DecidableEq

/-- `persistLocked` (persist.go lines 80-115): serialize the complete
table set. -/
def encodeState (s : StoreState) : PersistState :=
  { usersByID := s.usersByID.map (fun kv => (kv.1, userToWire kv.2)),
    usersByEmail := s.usersByEmail,
    usersByUsername := s.usersByUsername,
    novelsByID := s.novelsByID,
    chaptersByID := s.chaptersByID,
    chapterIDsByNovel := s.chapterIDsByNovel,
    commentsByID := s.commentsByID,
    commentIDsByNovel := s.commentIDsByNovel,
    bookmarks := s.bookmarks,
    sessions := s.sessions,
    nextUserID := s.nextUserID,
    nextNovelID := s.nextNovelID,
    nextChapterID := s.nextChapterID,
    nextCommentID := s.nextCommentID }

/-- `loadLocked` (persist.go lines 28-78): restore the table set from a
snapshot written by `persistLocked`. -/
def decodeState (p : PersistState) : StoreState :=
  { usersByID := p.usersByID.map (fun kv => (kv.1, userOfWire kv.2)),
    usersByEmail := p.usersByEmail,
    usersByUsername := p.usersByUsername,
    novelsByID := p.novelsByID,
    chaptersByID := p.chaptersByID,
    chapterIDsByNovel := p.chapterIDsByNovel,
    commentsByID := p.commentsByID,
    commentIDsByNovel := p.commentIDsByNovel,
    bookmarks := p.bookmarks,
    sessions := p.sessions,
    nextUserID := p.nextUserID,
    nextNovelID := p.nextNovelID,
    nextChapterID := p.nextChapterID,
    nextCommentID := p.nextCommentID }

deriving instance DecidableEq for Except

/-! ## Reachable states and structural invariants -/

/-- States reachable from the empty store by a sequence of successful
mutating operations (with arbitrary clock values and arbitrary
randomness threaded in). -/
inductive Reachable : StoreState → Prop where
  | empty : Reachable emptyStore
  | reg (s : StoreState) (username email password salt token : String) (now : Nat)
      (u : User) (s' : StoreState) (hs : Reachable s)
      (h : register s username email password salt token now = Except.ok (u, s')) :
      Reachable s'
  | log (s : StoreState) (email password token : String)
      (u : User) (s' : StoreState) (hs : Reachable s)
      (h : login s email password token = Except.ok (u, s')) : Reachable s'
  | cnovel (s : StoreState) (authorID : Int) (title description genre : String)
      (status : NovelStatus) (now : Nat) (n : Novel) (s' : StoreState) (hs : Reachable s)
      (h : createNovel s authorID title description genre status now = Except.ok (n, s')) :
      Reachable s'
  | unovel (s : StoreState) (id requesterID : Int) (title description genre : String)
      (status : Option NovelStatus) (now : Nat) (n : Novel) (s' : StoreState) (hs : Reachable s)
      (h : updateNovel s id requesterID title description genre status now = Except.ok (n, s')) :
      Reachable s'
  | dnovel (s : StoreState) (id requesterID : Int) (s' : StoreState) (hs : Reachable s)
      (h : deleteNovel s id requesterID = Except.ok s') : Reachable s'
  | cchapter (s : StoreState) (novelID requesterID : Int) (title content : String)
      (position : Int) (now : Nat) (ch : Chapter) (s' : StoreState) (hs : Reachable s)
      (h : createChapter s novelID requesterID title content position now = Except.ok (ch, s')) :
      Reachable s'
  | uchapter (s : StoreState) (novelID chapterID requesterID : Int) (title content : String)
      (position : Int) (now : Nat) (ch : Chapter) (s' : StoreState) (hs : Reachable s)
      (h : updateChapter s novelID chapterID requesterID title content position now = Except.ok (ch, s')) :
      Reachable s'
  | dchapter (s : StoreState) (novelID chapterID requesterID : Int) (s' : StoreState)
      (hs : Reachable s)
      (h : deleteChapter s novelID chapterID requesterID = Except.ok s') : Reachable s'
  | ccomment (s : StoreState) (novelID : Int) (chapterID : Option Int) (userID : Int)
      (body : String) (now : Nat) (cm : Comment) (s' : StoreState) (hs : Reachable s)
      (h : createComment s novelID chapterID userID body now = Except.ok (cm, s')) :
      Reachable s'
  | ubookmark (s : StoreState) (userID novelID : Int) (chapterID : Option Int) (now : Nat)
      (b : Bookmark) (s' : StoreState) (hs : Reachable s)
      (h : upsertBookmark s userID novelID chapterID now = Except.ok (b, s')) : Reachable s'

/-- Structural invariants of the table set maintained by every store
operation: the chapter/comment tables and the per-novel id lists index
each other exactly, the id lists are duplicate-free, identifiers never
exceed their counter, and every bookmark sits at the key derived from
its own (user, novel) pair, at most once. -/
structure StoreInv (s : StoreState) : Prop where
  chapterListed : ∀ cid ch, mapLookup s.chaptersByID cid = some ch →
    cid ∈ (mapLookup s.chapterIDsByNovel ch.novelID).getD []
  chapterSound : ∀ nid cid, cid ∈ (mapLookup s.chapterIDsByNovel nid).getD [] →
    ∃ ch, mapLookup s.chaptersByID cid = some ch ∧ ch.novelID = nid
  chapterNodup : ∀ nid, ((mapLookup s.chapterIDsByNovel nid).getD []).Nodup
  chapterFresh : ∀ cid ch, mapLookup s.chaptersByID cid = some ch → cid ≤ s.nextChapterID
  commentListed : ∀ cmid cm, mapLookup s.commentsByID cmid = some cm →
    cmid ∈ (mapLookup s.commentIDsByNovel cm.novelID).getD []
  commentSound : ∀ nid cmid, cmid ∈ (mapLookup s.commentIDsByNovel nid).getD [] →
    ∃ cm, mapLookup s.commentsByID cmid = some cm ∧ cm.novelID = nid
  commentNodup : ∀ nid, ((mapLookup s.commentIDsByNovel nid).getD []).Nodup
  commentFresh : ∀ cmid cm, mapLookup s.commentsByID cmid = some cm →
    cmid ≤ s.nextCommentID
  bookmarkKeys : ∀ k b, (k, b) ∈ s.bookmarks → k = bookmarkKey b.userID b.novelID
  bookmarkNodup : (s.bookmarks.map Prod.fst).Nodup

theorem inv_empty : StoreInv emptyStore := by
  constructor <;> simp [emptyStore]

/-- An operation that leaves the chapter, comment and bookmark
structures untouched preserves the invariants. -/
theorem inv_congr (s s' : StoreState) (hinv : StoreInv s)
    (h1 : s'.chaptersByID = s.chaptersByID)
    (h2 : s'.chapterIDsByNovel = s.chapterIDsByNovel)
    (h3 : s'.nextChapterID = s.nextChapterID)
    (h4 : s'.commentsByID = s.commentsByID)
    (h5 : s'.commentIDsByNovel = s.commentIDsByNovel)
    (h6 : s'.nextCommentID = s.nextCommentID)
    (h7 : s'.bookmarks = s.bookmarks) : StoreInv s' := by
  constructor <;> simp only [h1, h2, h3, h4, h5, h6, h7] <;> first
    | exact hinv.chapterListed
    | exact hinv.chapterSound
    | exact hinv.chapterNodup
    | exact hinv.chapterFresh
    | exact hinv.commentListed
    | exact hinv.commentSound
    | exact hinv.commentNodup
    | exact hinv.commentFresh
    | exact hinv.bookmarkKeys
    | exact hinv.bookmarkNodup

theorem inv_register (s : StoreState) (username email password salt token : String)
    (now : Nat) (u : User) (s' : StoreState) (hinv : StoreInv s)
    (h : register s username email password salt token now = Except.ok (u, s')) : StoreInv s' := by
  simp only [register] at h
  split at h
  · exact absurd h (by simp)
  · split at h
    · exact absurd h (by simp)
    · split at h
      · exact absurd h (by simp)
      · simp only [Except.ok.injEq, Prod.mk.injEq] at h
        obtain ⟨rfl, rfl⟩ := h
        exact inv_congr s _ hinv rfl rfl rfl rfl rfl rfl rfl

theorem inv_login (s : StoreState) (email password token : String)
    (u : User) (s' : StoreState) (hinv : StoreInv s)
    (h : login s email password token = Except.ok (u, s')) : StoreInv s' := by
  simp only [login] at h
  split at h
  · exact absurd h (by simp)
  · split at h
    · exact absurd h (by simp)
    · simp only [Except.ok.injEq, Prod.mk.injEq] at h
      obtain ⟨rfl, rfl⟩ := h
      exact inv_congr s _ hinv rfl rfl rfl rfl rfl rfl rfl

theorem inv_createNovel (s : StoreState) (authorID : Int) (title description genre : String)
    (status : NovelStatus) (now : Nat) (n : Novel) (s' : StoreState) (hinv : StoreInv s)
    (h : createNovel s authorID title description genre status now = Except.ok (n, s')) :
    StoreInv s' := by
  simp only [createNovel] at h
  split at h
  all_goals
    split at h
    · exact absurd h (by simp)
    · split at h
      · exact absurd h (by simp)
      · simp only [Except.ok.injEq, Prod.mk.injEq] at h
        obtain ⟨rfl, rfl⟩ := h
        exact inv_congr s _ hinv rfl rfl rfl rfl rfl rfl rfl

theorem inv_updateNovel (s : StoreState) (id requesterID : Int)
    (title description genre : String) (status : Option NovelStatus) (now : Nat)
    (n : Novel) (s' : StoreState) (hinv : StoreInv s)
    (h : updateNovel s id requesterID title description genre status now = Except.ok (n, s')) :
    StoreInv s' := by
  simp only [updateNovel] at h
  split at h
  · exact absurd h (by simp)
  · split at h
    · exact absurd h (by simp)
    · split at h
      · split at h
        · exact absurd h (by simp)
        · simp only [Except.ok.injEq, Prod.mk.injEq] at h
          obtain ⟨rfl, rfl⟩ := h
          exact inv_congr s _ hinv rfl rfl rfl rfl rfl rfl rfl
      · simp only [Except.ok.injEq, Prod.mk.injEq] at h
        obtain ⟨rfl, rfl⟩ := h
        exact inv_congr s _ hinv rfl rfl rfl rfl rfl rfl rfl

theorem inv_createChapter (s : StoreState) (novelID requesterID : Int)
    (title content : String) (position : Int) (now : Nat) (ch : Chapter) (s' : StoreState)
    (hinv : StoreInv s)
    (h : createChapter s novelID requesterID title content position now = Except.ok (ch, s')) :
    StoreInv s' := by
  simp only [createChapter] at h
  split at h
  · exact absurd h (by simp)
  next n hn =>
    split at h
    · exact absurd h (by simp)
    split at h
    · exact absurd h (by simp)
    simp only [Except.ok.injEq, Prod.mk.injEq] at h
    obtain ⟨rfl, rfl⟩ := h
    have hfreshIds : s.nextChapterID + 1 ∉ (mapLookup s.chapterIDsByNovel novelID).getD [] := by
      intro hmem
      obtain ⟨ch1, hch1, _⟩ := hinv.chapterSound novelID (s.nextChapterID + 1) hmem
      have := hinv.chapterFresh (s.nextChapterID + 1) ch1 hch1
      omega
    refine ⟨?_, ?_, ?_, ?_, ?_, ?_, ?_, ?_, ?_, ?_⟩ <;> dsimp only
    · intro cid0 ch0 hch0
      by_cases hc : cid0 = s.nextChapterID + 1
      · subst hc
        rw [mapLookup_insert_self] at hch0
        injection hch0 with hch0
        subst hch0
        simp [mapLookup_insert_self]
      · rw [mapLookup_insert_ne _ _ _ _ hc] at hch0
        have hold := hinv.chapterListed cid0 ch0 hch0
        by_cases hn0 : ch0.novelID = novelID
        · rw [hn0] at hold ⊢
          rw [mapLookup_insert_self]
          simp only [Option.getD_some, List.mem_append]
          exact Or.inl hold
        · rw [mapLookup_insert_ne _ _ _ _ hn0]
          exact hold
    · intro nid cid0 hmem
      by_cases hn0 : nid = novelID
      · subst hn0
        rw [mapLookup_insert_self] at hmem
        simp only [Option.getD_some, List.mem_append, List.mem_singleton] at hmem
        rcases hmem with hmem | hmem
        · obtain ⟨ch1, hch1, hnv⟩ := hinv.chapterSound nid cid0 hmem
          have hne : cid0 ≠ s.nextChapterID + 1 := by
            have := hinv.chapterFresh cid0 ch1 hch1
            omega
          exact ⟨ch1, by rw [mapLookup_insert_ne _ _ _ _ hne]; exact hch1, hnv⟩
        · subst hmem
          exact ⟨_, mapLookup_insert_self _ _ _, rfl⟩
      · rw [mapLookup_insert_ne _ _ _ _ hn0] at hmem
        obtain ⟨ch1, hch1, hnv⟩ := hinv.chapterSound nid cid0 hmem
        have hne : cid0 ≠ s.nextChapterID + 1 := by
          have := hinv.chapterFresh cid0 ch1 hch1
          omega
        exact ⟨ch1, by rw [mapLookup_insert_ne _ _ _ _ hne]; exact hch1, hnv⟩
    · intro nid
      by_cases hn0 : nid = novelID
      · subst hn0
        rw [mapLookup_insert_self]
        simp only [Option.getD_some, List.nodup_append, List.nodup_cons, List.nodup_nil]
        exact ⟨hinv.chapterNodup nid, by simp, by simpa using hfreshIds⟩
      · rw [mapLookup_insert_ne _ _ _ _ hn0]
        exact hinv.chapterNodup nid
    · intro cid0 ch0 hch0
      by_cases hc : cid0 = s.nextChapterID + 1
      · omega
      · rw [mapLookup_insert_ne _ _ _ _ hc] at hch0
        have := hinv.chapterFresh cid0 ch0 hch0
        omega
    · exact hinv.commentListed
    · exact hinv.commentSound
    · exact hinv.commentNodup
    · exact hinv.commentFresh
    · exact hinv.bookmarkKeys
    · exact hinv.bookmarkNodup

@[simp] theorem applyChapterUpdate_novelID (ch : Chapter) (title content : String)
    (position : Int) (now : Nat) :
    (applyChapterUpdate ch title content position now).novelID = ch.novelID := by
  simp only [applyChapterUpdate]
  split <;> split <;> split <;> rfl

@[simp] theorem applyChapterUpdate_id (ch : Chapter) (title content : String)
    (position : Int) (now : Nat) :
    (applyChapterUpdate ch title content position now).id = ch.id := by
  simp only [applyChapterUpdate]
  split <;> split <;> split <;> rfl

theorem inv_updateChapter (s : StoreState) (novelID chapterID requesterID : Int)
    (title content : String) (position : Int) (now : Nat) (ch : Chapter) (s' : StoreState)
    (hinv : StoreInv s)
    (h : updateChapter s novelID chapterID requesterID title content position now = Except.ok (ch, s')) :
    StoreInv s' := by
  simp only [updateChapter] at h
  split at h
  · exact absurd h (by simp)
  next n hn =>
    split at h
    · exact absurd h (by simp)
    split at h
    · exact absurd h (by simp)
    next chOld hch =>
      split at h
      · exact absurd h (by simp)
      next hnv =>
        rw [not_not] at hnv
        simp only [Except.ok.injEq, Prod.mk.injEq] at h
        obtain ⟨rfl, rfl⟩ := h
        refine ⟨?_, ?_, ?_, ?_, ?_, ?_, ?_, ?_, ?_, ?_⟩ <;> dsimp only
        · intro cid0 ch0 hch0
          by_cases hc : cid0 = chapterID
          · subst hc
            rw [mapLookup_insert_self] at hch0
            injection hch0 with hch0
            subst hch0
            rw [applyChapterUpdate_novelID]
            exact hinv.chapterListed _ chOld hch
          · rw [mapLookup_insert_ne _ _ _ _ hc] at hch0
            exact hinv.chapterListed cid0 ch0 hch0
        · intro nid cid0 hmem
          obtain ⟨ch1, hch1, hnv1⟩ := hinv.chapterSound nid cid0 hmem
          by_cases hc : cid0 = chapterID
          · subst hc
            refine ⟨_, mapLookup_insert_self _ _ _, ?_⟩
            rw [applyChapterUpdate_novelID]
            rw [hch1] at hch
            injection hch with hch
            rw [hch] at hnv1
            exact hnv1
          · exact ⟨ch1, by rw [mapLookup_insert_ne _ _ _ _ hc]; exact hch1, hnv1⟩
        · exact hinv.chapterNodup
        · intro cid0 ch0 hch0
          by_cases hc : cid0 = chapterID
          · subst hc
            exact hinv.chapterFresh _ chOld hch
          · rw [mapLookup_insert_ne _ _ _ _ hc] at hch0
            exact hinv.chapterFresh cid0 ch0 hch0
        · exact hinv.commentListed
        · exact hinv.commentSound
        · exact hinv.commentNodup
        · exact hinv.commentFresh
        · exact hinv.bookmarkKeys
        · exact hinv.bookmarkNodup

theorem inv_deleteChapter (s : StoreState) (novelID chapterID requesterID : Int)
    (s' : StoreState) (hinv : StoreInv s)
    (h : deleteChapter s novelID chapterID requesterID = Except.ok s') : StoreInv s' := by
  simp only [deleteChapter] at h
  split at h
  · exact absurd h (by simp)
  next n hn =>
    split at h
    · exact absurd h (by simp)
    split at h
    · exact absurd h (by simp)
    next chOld hch =>
      split at h
      · exact absurd h (by simp)
      next hnv =>
        rw [not_not] at hnv
        simp only [Except.ok.injEq] at h
        subst h
        have hlisted := hinv.chapterListed chapterID chOld hch
        rw [hnv] at hlisted
        rw [if_pos hlisted]
        refine ⟨?_, ?_, ?_, ?_, ?_, ?_, ?_, ?_, ?_, ?_⟩ <;> dsimp only
        · intro cid0 ch0 hch0
          rw [mapLookup_erase] at hch0
          split at hch0
          · exact absurd hch0 (by simp)
          next hc =>
            have hold := hinv.chapterListed cid0 ch0 hch0
            by_cases hn0 : ch0.novelID = novelID
            · rw [hn0] at hold ⊢
              rw [mapLookup_insert_self]
              simp only [Option.getD_some]
              exact mem_removeFirst_of_ne _ _ _ hold hc
            · rw [mapLookup_insert_ne _ _ _ _ hn0]
              exact hold
        · intro nid cid0 hmem
          by_cases hn0 : nid = novelID
          · subst hn0
            rw [mapLookup_insert_self] at hmem
            simp only [Option.getD_some] at hmem
            have hin : cid0 ∈ (mapLookup s.chapterIDsByNovel nid).getD [] :=
              mem_removeFirst _ _ _ hmem
            have hne : cid0 ≠ chapterID := by
              intro heq
              subst heq
              exact not_mem_removeFirst _ _ (hinv.chapterNodup nid) hmem
            obtain ⟨ch1, hch1, hnv1⟩ := hinv.chapterSound nid cid0 hin
            refine ⟨ch1, ?_, hnv1⟩
            rw [mapLookup_erase, if_neg hne]
            exact hch1
          · rw [mapLookup_insert_ne _ _ _ _ hn0] at hmem
            obtain ⟨ch1, hch1, hnv1⟩ := hinv.chapterSound nid cid0 hmem
            have hne : cid0 ≠ chapterID := by
              intro heq
              subst heq
              rw [hch1] at hch
              injection hch with hch
              rw [← hch] at hnv
              rw [hnv1] at hnv
              exact hn0 hnv
            refine ⟨ch1, ?_, hnv1⟩
            rw [mapLookup_erase, if_neg hne]
            exact hch1
        · intro nid
          by_cases hn0 : nid = novelID
          · subst hn0
            rw [mapLookup_insert_self]
            simp only [Option.getD_some]
            exact nodup_removeFirst _ _ (hinv.chapterNodup nid)
          · rw [mapLookup_insert_ne _ _ _ _ hn0]
            exact hinv.chapterNodup nid
        · intro cid0 ch0 hch0
          rw [mapLookup_erase] at hch0
          split at hch0
          · exact absurd hch0 (by simp)
          · exact hinv.chapterFresh cid0 ch0 hch0
        · exact hinv.commentListed
        · exact hinv.commentSound
        · exact hinv.commentNodup
        · exact hinv.commentFresh
        · intro k b hkb
          rcases List.mem_map.mp hkb with ⟨kv, hkv, hf⟩
          by_cases hcond : kv.2.novelID = novelID ∧ kv.2.chapterID = some chapterID
          · rw [if_pos hcond] at hf
            have hk := hinv.bookmarkKeys kv.1 kv.2 hkv
            injection hf with hf1 hf2
            rw [← hf1, ← hf2]
            exact hk
          · rw [if_neg hcond] at hf
            obtain ⟨k1, b1⟩ := kv
            injection hf with hf1 hf2
            subst hf1
            subst hf2
            exact hinv.bookmarkKeys _ _ hkv
        · have hmm : (s.bookmarks.map (fun kv =>
              if kv.2.novelID = novelID ∧ kv.2.chapterID = some chapterID then
                (kv.1, { kv.2 with chapterID := none, chapterPos := none })
              else kv)).map Prod.fst = s.bookmarks.map Prod.fst := by
            rw [List.map_map]
            refine List.map_congr_left ?_
            intro kv _
            by_cases hcond : kv.2.novelID = novelID ∧ kv.2.chapterID = some chapterID
            · simp [hcond]
            · simp [hcond]
          rw [hmm]
          exact hinv.bookmarkNodup

theorem inv_deleteNovel (s : StoreState) (id requesterID : Int) (s' : StoreState)
    (hinv : StoreInv s) (h : deleteNovel s id requesterID = Except.ok s') : StoreInv s' := by
  simp only [deleteNovel] at h
  split at h
  · exact absurd h (by simp)
  next n hn =>
    split at h
    · exact absurd h (by simp)
    simp only [Except.ok.injEq] at h
    subst h
    refine ⟨?_, ?_, ?_, ?_, ?_, ?_, ?_, ?_, ?_, ?_⟩ <;> dsimp only
    · intro cid0 ch0 hch0
      rw [mapLookup_removeKeys] at hch0
      split at hch0
      · exact absurd hch0 (by simp)
      next hnotin =>
        have hold := hinv.chapterListed cid0 ch0 hch0
        have hn0 : ch0.novelID ≠ id := by
          intro heq
          rw [heq] at hold
          exact hnotin hold
        rw [mapLookup_erase, if_neg hn0]
        exact hold
    · intro nid cid0 hmem
      rw [mapLookup_erase] at hmem
      split at hmem
      · simp at hmem
      next hnid =>
        obtain ⟨ch1, hch1, hnv1⟩ := hinv.chapterSound nid cid0 hmem
        have hnotin : cid0 ∉ (mapLookup s.chapterIDsByNovel id).getD [] := by
          intro hin
          obtain ⟨ch2, hch2, hnv2⟩ := hinv.chapterSound id cid0 hin
          rw [hch1] at hch2
          injection hch2 with hch2
          rw [← hch2] at hnv2
          rw [hnv1] at hnv2
          exact hnid hnv2
        refine ⟨ch1, ?_, hnv1⟩
        rw [mapLookup_removeKeys, if_neg hnotin]
        exact hch1
    · intro nid
      rw [mapLookup_erase]
      split
      · simp
      · exact hinv.chapterNodup nid
    · intro cid0 ch0 hch0
      rw [mapLookup_removeKeys] at hch0
      split at hch0
      · exact absurd hch0 (by simp)
      · exact hinv.chapterFresh cid0 ch0 hch0
    · intro cmid0 cm0 hcm0
      rw [mapLookup_removeKeys] at hcm0
      split at hcm0
      · exact absurd hcm0 (by simp)
      next hnotin =>
        have hold := hinv.commentListed cmid0 cm0 hcm0
        have hn0 : cm0.novelID ≠ id := by
          intro heq
          rw [heq] at hold
          exact hnotin hold
        rw [mapLookup_erase, if_neg hn0]
        exact hold
    · intro nid cmid0 hmem
      rw [mapLookup_erase] at hmem
      split at hmem
      · simp at hmem
      next hnid =>
        obtain ⟨cm1, hcm1, hnv1⟩ := hinv.commentSound nid cmid0 hmem
        have hnotin : cmid0 ∉ (mapLookup s.commentIDsByNovel id).getD [] := by
          intro hin
          obtain ⟨cm2, hcm2, hnv2⟩ := hinv.commentSound id cmid0 hin
          rw [hcm1] at hcm2
          injection hcm2 with hcm2
          rw [← hcm2] at hnv2
          rw [hnv1] at hnv2
          exact hnid hnv2
        refine ⟨cm1, ?_, hnv1⟩
        rw [mapLookup_removeKeys, if_neg hnotin]
        exact hcm1
    · intro nid
      rw [mapLookup_erase]
      split
      · simp
      · exact hinv.commentNodup nid
    · intro cmid0 cm0 hcm0
      rw [mapLookup_removeKeys] at hcm0
      split at hcm0
      · exact absurd hcm0 (by simp)
      · exact hinv.commentFresh cmid0 cm0 hcm0
    · intro k b hkb
      exact hinv.bookmarkKeys k b (List.mem_of_mem_filter hkb)
    · exact ((List.filter_sublist _).map Prod.fst).nodup hinv.bookmarkNodup

theorem inv_commentInsert (s : StoreState) (novelID : Int) (chapterID : Option Int)
    (userID : Int) (body : String) (now : Nat) (hinv : StoreInv s) :
    StoreInv (commentInsert s novelID chapterID userID body now).2 := by
  simp only [commentInsert]
  have hfreshIds : s.nextCommentID + 1 ∉ (mapLookup s.commentIDsByNovel novelID).getD [] := by
    intro hmem
    obtain ⟨cm1, hcm1, _⟩ := hinv.commentSound novelID (s.nextCommentID + 1) hmem
    have := hinv.commentFresh (s.nextCommentID + 1) cm1 hcm1
    omega
  refine ⟨?_, ?_, ?_, ?_, ?_, ?_, ?_, ?_, ?_, ?_⟩ <;> dsimp only
  · exact hinv.chapterListed
  · exact hinv.chapterSound
  · exact hinv.chapterNodup
  · exact hinv.chapterFresh
  · intro cmid0 cm0 hcm0
    by_cases hc : cmid0 = s.nextCommentID + 1
    · subst hc
      rw [mapLookup_insert_self] at hcm0
      injection hcm0 with hcm0
      subst hcm0
      simp [mapLookup_insert_self]
    · rw [mapLookup_insert_ne _ _ _ _ hc] at hcm0
      have hold := hinv.commentListed cmid0 cm0 hcm0
      by_cases hn0 : cm0.novelID = novelID
      · rw [hn0] at hold ⊢
        rw [mapLookup_insert_self]
        simp only [Option.getD_some, List.mem_append]
        exact Or.inl hold
      · rw [mapLookup_insert_ne _ _ _ _ hn0]
        exact hold
  · intro nid cmid0 hmem
    by_cases hn0 : nid = novelID
    · subst hn0
      rw [mapLookup_insert_self] at hmem
      simp only [Option.getD_some, List.mem_append, List.mem_singleton] at hmem
      rcases hmem with hmem | hmem
      · obtain ⟨cm1, hcm1, hnv⟩ := hinv.commentSound nid cmid0 hmem
        have hne : cmid0 ≠ s.nextCommentID + 1 := by
          have := hinv.commentFresh cmid0 cm1 hcm1
          omega
        exact ⟨cm1, by rw [mapLookup_insert_ne _ _ _ _ hne]; exact hcm1, hnv⟩
      · subst hmem
        exact ⟨_, mapLookup_insert_self _ _ _, rfl⟩
    · rw [mapLookup_insert_ne _ _ _ _ hn0] at hmem
      obtain ⟨cm1, hcm1, hnv⟩ := hinv.commentSound nid cmid0 hmem
      have hne : cmid0 ≠ s.nextCommentID + 1 := by
        have := hinv.commentFresh cmid0 cm1 hcm1
        omega
      exact ⟨cm1, by rw [mapLookup_insert_ne _ _ _ _ hne]; exact hcm1, hnv⟩
  · intro nid
    by_cases hn0 : nid = novelID
    · subst hn0
      rw [mapLookup_insert_self]
      simp only [Option.getD_some, List.nodup_append, List.nodup_cons, List.nodup_nil]
      exact ⟨hinv.commentNodup nid, by simp, by simpa using hfreshIds⟩
    · rw [mapLookup_insert_ne _ _ _ _ hn0]
      exact hinv.commentNodup nid
  · intro cmid0 cm0 hcm0
    by_cases hc : cmid0 = s.nextCommentID + 1
    · omega
    · rw [mapLookup_insert_ne _ _ _ _ hc] at hcm0
      have := hinv.commentFresh cmid0 cm0 hcm0
      omega
  · exact hinv.bookmarkKeys
  · exact hinv.bookmarkNodup

theorem inv_createComment (s : StoreState) (novelID : Int) (chapterID : Option Int)
    (userID : Int) (body : String) (now : Nat) (cm : Comment) (s' : StoreState)
    (hinv : StoreInv s)
    (h : createComment s novelID chapterID userID body now = Except.ok (cm, s')) :
    StoreInv s' := by
  simp only [createComment] at h
  split at h
  · exact absurd h (by simp)
  split at h
  · exact absurd h (by simp)
  split at h
  · exact absurd h (by simp)
  split at h
  · split at h
    · exact absurd h (by simp)
    split at h
    · exact absurd h (by simp)
    · simp only [Except.ok.injEq] at h
      have h2 := congrArg Prod.snd h
      dsimp only at h2
      rw [← h2]
      exact inv_commentInsert s novelID _ userID body now hinv
  · simp only [Except.ok.injEq] at h
    have h2 := congrArg Prod.snd h
    dsimp only at h2
    rw [← h2]
    exact inv_commentInsert s novelID _ userID body now hinv

/-- Inserting a bookmark at the key derived from its own pair preserves
the invariants. -/
theorem inv_insertBookmark (s : StoreState) (b : Bookmark) (hinv : StoreInv s) :
    StoreInv { s with bookmarks := mapInsert s.bookmarks (bookmarkKey b.userID b.novelID) b } := by
  refine ⟨?_, ?_, ?_, ?_, ?_, ?_, ?_, ?_, ?_, ?_⟩ <;> dsimp only
  · exact hinv.chapterListed
  · exact hinv.chapterSound
  · exact hinv.chapterNodup
  · exact hinv.chapterFresh
  · exact hinv.commentListed
  · exact hinv.commentSound
  · exact hinv.commentNodup
  · exact hinv.commentFresh
  · intro k b0 hkb
    rcases mem_mapInsert _ _ _ _ hkb with h1 | h1
    · injection h1 with h1a h1b
      subst h1a
      subst h1b
      rfl
    · exact hinv.bookmarkKeys k b0 h1
  · exact keysNodup_mapInsert _ _ _ hinv.bookmarkNodup

theorem inv_upsertBookmark (s : StoreState) (userID novelID : Int) (chapterID : Option Int)
    (now : Nat) (b : Bookmark) (s' : StoreState) (hinv : StoreInv s)
    (h : upsertBookmark s userID novelID chapterID now = Except.ok (b, s')) : StoreInv s' := by
  simp only [upsertBookmark] at h
  split at h
  · exact absurd h (by simp)
  split at h
  · exact absurd h (by simp)
  split at h
  next cid =>
    split at h
    · exact absurd h (by simp)
    next ch hch =>
      split at h
      · exact absurd h (by simp)
      simp only [Except.ok.injEq, Prod.mk.injEq] at h
      obtain ⟨rfl, rfl⟩ := h
      exact inv_insertBookmark s
        { userID := userID, novelID := novelID, chapterID := some cid,
          updatedAt := now, chapterPos := some ch.position } hinv
  next =>
    simp only [Except.ok.injEq, Prod.mk.injEq] at h
    obtain ⟨rfl, rfl⟩ := h
    exact inv_insertBookmark s
      { userID := userID, novelID := novelID, chapterID := none,
        updatedAt := now, chapterPos := none } hinv


theorem reachable_inv (s : StoreState) (h : Reachable s) : StoreInv s := by
  induction h with
  | empty => exact inv_empty
  | reg s un em pw salt tok now u s' hs h ih =>
    exact inv_register s un em pw salt tok now u s' ih h
  | log s em pw tok u s' hs h ih => exact inv_login s em pw tok u s' ih h
  | cnovel s a t d g st now n s' hs h ih => exact inv_createNovel s a t d g st now n s' ih h
  | unovel s id r t d g st now n s' hs h ih =>
    exact inv_updateNovel s id r t d g st now n s' ih h
  | dnovel s id r s' hs h ih => exact inv_deleteNovel s id r s' ih h
  | cchapter s nid r t c p now ch s' hs h ih =>
    exact inv_createChapter s nid r t c p now ch s' ih h
  | uchapter s nid cid r t c p now ch s' hs h ih =>
    exact inv_updateChapter s nid cid r t c p now ch s' ih h
  | dchapter s nid cid r s' hs h ih => exact inv_deleteChapter s nid cid r s' ih h
  | ccomment s nid cid uid bd now cm s' hs h ih =>
    exact inv_createComment s nid cid uid bd now cm s' ih h
  | ubookmark s uid nid cid now b s' hs h ih =>
    exact inv_upsertBookmark s uid nid cid now b s' ih h

/-! ## Concrete example states used by witnesses and counterexamples -/

/-- Post-state of a successful entity-creating operation (fallback is
never reached in the uses below). -/
def okState2 {α : Type} (r : Except StoreErr (α × StoreState)) : StoreState :=
  match r with
  | .ok (_, s) => s
  | .error _ => emptyStore

/-- A store holding one published novel (id 1) by author 1. -/
def exPub : StoreState := okState2 (createNovel emptyStore 1 "Sky" "d" "g" "published" 1)

/-- The novel record of `exPub`. -/
def exPubNovel : Novel :=
  { id := 1, authorID := 1, title := "Sky", description := "d", genre := "g",
    status := novelPublished, createdAt := 1, updatedAt := 1 }

/-- A store holding one draft novel (id 1) by author 1. -/
def exDraft : StoreState := okState2 (createNovel emptyStore 1 "Sky" "d" "g" "draft" 1)

/-- The novel record of `exDraft`. -/
def exDraftNovel : Novel :=
  { id := 1, authorID := 1, title := "Sky", description := "d", genre := "g",
    status := novelDraft, createdAt := 1, updatedAt := 1 }

/-- `exPub` plus chapter 1 (position 3) by the author. -/
def exPubCh : StoreState := okState2 (createChapter exPub 1 1 "ch" "x" 3 2)

/-- A user registered on the empty store. -/
def exUserState : StoreState :=
  okState2 (register emptyStore "alice" "al@x" "pw" "saltsalt" "tok" 0)

/-! ## Claim C1 -/

/-- Claim C1 (code bug evidence): `ListNovels` with `include_drafts=true`
returns a draft novel authored by user 1 to requester 2.  The filter in
store.go line 217 skips the draft check entirely whenever
`includeDrafts` is set, with no per-novel ownership test, although the
repository README documents `include_drafts=true` as "still only
returns drafts you own" and the specification requires per-novel
ownership.  The output shown is the unique sort outcome for a
one-element slice. -/
theorem c1_draft_exposed :
    exDraftNovel.status = novelDraft ∧
    exDraftNovel.authorID ≠ 2 ∧
    mapLookup exDraft.novelsByID 1 = some exDraftNovel ∧
    listNovelsRel exDraft "" 0 true 2 0 0 (some [exDraftNovel]) := by
  refine ⟨by decide, by decide, by decide, ⟨[exDraftNovel], ⟨?_, ?_⟩, by decide⟩⟩
  · have hfil : novelsFilter exDraft "" 0 true 2 = [exDraftNovel] := by decide
    rw [hfil]
  · exact List.chain'_singleton _

/-! ## Claim C10 -/

/-- Claim C10 (counterexample): with `offset = -1` on the empty store,
`ListNovels` reaches `result[-1:]` (the guard only rules out
`offset > len(result)`), which panics in Go; the model outcome is
`none`, not a list. -/
theorem c10_negative_offset_panics :
    listNovelsRel emptyStore "" 0 false 0 0 (-1) none := by
  exact ⟨[], ⟨by decide, List.chain'_nil⟩, by decide⟩

/-- Claim C10 (amended): for every store state and every integer limit,
`ListNovels` is total whenever `offset ≥ 0`: every outcome the
operation admits is a (possibly empty) list; only a negative offset can
panic. -/
theorem c10_amended (s : StoreState) (query : String) (authorID : Int)
    (includeDrafts : Bool) (requesterID : Int) (limit offset : Int)
    (out : Option (List Novel)) (hoff : 0 ≤ offset)
    (h : listNovelsRel s query authorID includeDrafts requesterID limit offset out) :
    ∃ l, out = some l := by
  obtain ⟨sorted, _, rfl⟩ := h
  unfold novelsSlice
  split
  · exact ⟨[], rfl⟩
  · split
    · omega
    · exact ⟨_, rfl⟩

/-- Witness for C10 (amended) at the empty store with offset 0. -/
theorem c10_amended_witness : ∃ l, (some ([] : List Novel)) = some l :=
  c10_amended emptyStore "" 0 false 0 0 0 (some []) (by decide)
    ⟨[], ⟨by decide, List.chain'_nil⟩, by decide⟩

/-! ## Claim C2 -/

/-- Claim C2 (code bug evidence): the snapshot does not round-trip the
table set.  `model.User.PasswordSalt` and `model.User.PasswordHash`
carry `json:"-"` (model.go lines 9-10), so `persistLocked` omits them
and `loadLocked` restores them as empty strings: after one registration,
load(snapshot(state)) differs from the state, the stored salt coming
back empty — every persisted password becomes unverifiable after a
restart, although the README promises that users and auth tokens
survive restarts and the specification requires an identical table set.
The serialized form itself is a fixed point, so the weaker equation
snapshot(load(snapshot(state))) = snapshot(state) does hold, which is
also shown. -/
theorem c2_snapshot_drops_credentials :
    decodeState (encodeState exUserState) ≠ exUserState ∧
    (mapLookup (decodeState (encodeState exUserState)).usersByID 1).map User.passwordSalt =
      some "" ∧
    (mapLookup exUserState.usersByID 1).map User.passwordSalt = some "saltsalt" ∧
    (∀ s : StoreState, encodeState (decodeState (encodeState s)) = encodeState s) := by
  refine ⟨by decide, by decide, by decide, ?_⟩
  intro s
  simp only [encodeState, decodeState, List.map_map]
  rfl

/-! ## Claim C7 -/

/-- Claim C7 (counterexample): the password is not normalized before the
emptiness check (store.go line 99 compares the raw `password` with
`""`), so a registration whose password is all whitespace — empty after
normalization — succeeds instead of failing with a validation error. -/
theorem c7_blank_password_accepted :
    normalizeGo " " = "" ∧
    (register emptyStore "a" "b" " " "saltsalt" "tok" 0).isOk = true := by
  decide

/-- Claim C7 (amended): `Register` fails with the validation error when
the username or email is empty after normalization or the password is
empty as given (the password is not normalized); otherwise it fails
with the conflict error when the normalized username or normalized
email is already claimed; otherwise it succeeds, and the stored user
carries the salt and `hashPassword salt password` — no field holds the
raw password. -/
theorem c7_amended (s : StoreState) (username email password salt token : String) (now : Nat) :
    ((normalizeGo username = "" ∨ normalizeGo email = "" ∨ password = "") →
      register s username email password salt token now =
        Except.error (StoreErr.validation "username, email, and password are required")) ∧
    (¬(normalizeGo username = "" ∨ normalizeGo email = "" ∨ password = "") →
      ((mapLookup s.usersByUsername (normalizeGo username)).isSome = true ∨
        (mapLookup s.usersByEmail (normalizeGo email)).isSome = true) →
      register s username email password salt token now = Except.error StoreErr.conflict) ∧
    (¬(normalizeGo username = "" ∨ normalizeGo email = "" ∨ password = "") →
      (mapLookup s.usersByUsername (normalizeGo username)).isSome = false →
      (mapLookup s.usersByEmail (normalizeGo email)).isSome = false →
      register s username email password salt token now =
        Except.ok
          ({ id := s.nextUserID + 1, username := trimSpace username,
             email := trimSpace email, passwordSalt := salt,
             passwordHash := hashPassword salt password, createdAt := now },
           { s with
             nextUserID := s.nextUserID + 1,
             usersByID := mapInsert s.usersByID (s.nextUserID + 1)
               { id := s.nextUserID + 1, username := trimSpace username,
                 email := trimSpace email, passwordSalt := salt,
                 passwordHash := hashPassword salt password, createdAt := now },
             usersByEmail := mapInsert s.usersByEmail (normalizeGo email) (s.nextUserID + 1),
             usersByUsername :=
               mapInsert s.usersByUsername (normalizeGo username) (s.nextUserID + 1),
             sessions := mapInsert s.sessions token (s.nextUserID + 1) })) := by
  refine ⟨?_, ?_, ?_⟩
  · intro hempty
    simp only [register]
    rw [if_pos hempty]
  · intro hempty hclaimed
    simp only [register]
    rw [if_neg hempty]
    rcases hclaimed with hu | he
    · rw [if_pos hu]
    · by_cases hu : (mapLookup s.usersByUsername (normalizeGo username)).isSome = true
      · rw [if_pos hu]
      · rw [if_neg hu, if_pos he]
  · intro hempty hu he
    simp only [register]
    rw [if_neg hempty, if_neg (by simp [hu]), if_neg (by simp [he])]

/-- Witness for C7 (amended): all three branches at concrete inputs. -/
theorem c7_amended_witness :
    register emptyStore "a" "b" "" "s1" "t1" 0 =
      Except.error (StoreErr.validation "username, email, and password are required") ∧
    register exUserState "Alice" "other" "x" "s2" "t2" 5 = Except.error StoreErr.conflict ∧
    register emptyStore "bob" "bb" "pw" "s3" "t3" 7 =
      Except.ok
        ({ id := 1, username := "bob", email := "bb", passwordSalt := "s3",
           passwordHash := hashPassword "s3" "pw", createdAt := 7 },
         { emptyStore with
           nextUserID := 1,
           usersByID := [(1, { id := 1, username := "bob", email := "bb", passwordSalt := "s3",
                               passwordHash := hashPassword "s3" "pw", createdAt := 7 })],
           usersByEmail := [("bb", 1)],
           usersByUsername := [("bob", 1)],
           sessions := [("t3", 1)] }) := by
  refine ⟨(c7_amended emptyStore "a" "b" "" "s1" "t1" 0).1 (by decide),
    (c7_amended exUserState "Alice" "other" "x" "s2" "t2" 5).2.1 (by decide) (by decide), ?_⟩
  have h := (c7_amended emptyStore "bob" "bb" "pw" "s3" "t3" 7).2.2 (by decide)
    (by decide) (by decide)
  rw [h]
  decide

/-! ## Claim C5 -/

/-- The total preorder on comments by creation time, used to exhibit
outputs that the `sort.Slice` contract admits. -/
def commentOrder (a b : Comment) : Prop := a.createdAt ≤ b.createdAt

instance : IsTotal Comment commentOrder :=
  ⟨fun a b => Nat.le_total a.createdAt b.createdAt⟩

instance : IsTrans Comment commentOrder :=
  ⟨fun _ _ _ => Nat.le_trans⟩

instance : DecidableRel commentOrder :=
  fun a b => inferInstanceAs (Decidable (a.createdAt ≤ b.createdAt))

/-- Claim C5 (counterexample): filtering comments by a chapter id that
does not exist under the novel does not fail — `ListComments` never
looks the filter chapter up (store.go lines 508-515); it returns the
empty list.  Here novel 1 is published with no chapters and no
comments, and the filter asks for chapter 5. -/
theorem c5_missing_chapter_filter_ok :
    mapLookup exPub.chaptersByID 5 = none ∧
    listCommentsRel exPub 1 0 (some 5) (Except.ok []) := by
  refine ⟨by decide, ?_⟩
  exact (⟨by decide, List.chain'_nil⟩ :
    sortSliceOK commentLess (commentsGather exPub 1 (some 5)) [])

/-- Claim C5 (amended): when the novel exists and is visible to the
requester, `ListComments` with a chapter filter never fails, whether or
not the chapter exists: every admitted outcome is a list containing
exactly comments whose chapter id equals the filter, and at least one
outcome exists. -/
theorem c5_amended (s : StoreState) (novelID requesterID cid : Int) (n : Novel)
    (hn : mapLookup s.novelsByID novelID = some n)
    (hvis : ¬(n.status ≠ novelPublished ∧ n.authorID ≠ requesterID)) :
    (∀ out, listCommentsRel s novelID requesterID (some cid) out →
      ∃ l, out = Except.ok l ∧ ∀ c ∈ l, c.chapterID = some cid) ∧
    (∃ l, listCommentsRel s novelID requesterID (some cid) (Except.ok l)) := by
  have hgather : ∀ c ∈ commentsGather s novelID (some cid), c.chapterID = some cid := by
    intro c hc
    simp only [commentsGather, List.mem_filter] at hc
    simpa using hc.2
  constructor
  · intro out hout
    unfold listCommentsRel at hout
    simp only [hn] at hout
    rw [if_neg hvis] at hout
    match out, hout with
    | Except.ok l, hout =>
      refine ⟨l, rfl, ?_⟩
      intro c hc
      exact hgather c (hout.1.mem_iff.mpr hc)
  · refine ⟨List.insertionSort commentOrder (commentsGather s novelID (some cid)), ?_⟩
    unfold listCommentsRel
    simp only [hn]
    rw [if_neg hvis]
    refine ⟨(List.perm_insertionSort commentOrder _).symm, ?_⟩
    have hs := List.sorted_insertionSort commentOrder (commentsGather s novelID (some cid))
    refine List.Chain'.imp ?_ hs.chain'
    intro a b hab
    simp only [commentLess, decide_eq_false_iff_not, not_lt]
    exact hab

/-- Witness for C5 (amended) on a published novel with no chapters,
filtering by the nonexistent chapter 5. -/
theorem c5_amended_witness :
    ∃ l, listCommentsRel exPub 1 0 (some 5) (Except.ok l) :=
  (c5_amended exPub 1 0 5 exPubNovel (by decide) (by decide)).2

/-! ## Claim C4 -/

/-- Claim C4 (counterexample): chapter 99 does not exist, yet a chapter
update (and delete) under the existing published novel 1 by
non-owner 2 yields the forbidden error, not the not-found error —
ownership of the parent novel is checked before the chapter is looked
up (store.go lines 397-402 and 431-436). -/
theorem c4_forbidden_before_existence :
    mapLookup exPub.chaptersByID 99 = none ∧
    updateChapter exPub 1 99 2 "" "" 0 9 = Except.error StoreErr.unauthorized ∧
    deleteChapter exPub 1 99 2 = Except.error StoreErr.unauthorized := by
  decide

/-- The scan of `ChapterByID` misses every chapter whose id differs. -/
theorem findChapter_notFound (l : List Chapter) (chapterID : Int)
    (h : ∀ ch ∈ l, ch.id ≠ chapterID) :
    findChapter l chapterID = Except.error StoreErr.notFound := by
  induction l with
  | nil => rfl
  | cons ch rest ih =>
    rw [findChapter, if_neg (h ch (List.mem_cons_self _ _))]
    exact ih fun c hc => h c (List.mem_cons_of_mem _ hc)

/-- Claim C4 (amended): the not-found/forbidden precedence holds for
the parent novel (a missing novel is not-found before any other check),
but for chapter update and delete the ownership check on the novel
comes before the chapter lookup, so a non-owner receives the forbidden
error even when the chapter does not exist; when the requester owns the
novel (mutations) or may view it (reads), a missing chapter — absent
from the table or belonging to another novel — yields the not-found
error. -/
theorem c4_amended :
    (∀ s nid cid rid t c p now, mapLookup s.novelsByID nid = none →
      updateChapter s nid cid rid t c p now = Except.error StoreErr.notFound) ∧
    (∀ s nid cid rid, mapLookup s.novelsByID nid = none →
      deleteChapter s nid cid rid = Except.error StoreErr.notFound) ∧
    (∀ s nid cid rid t c p now n, mapLookup s.novelsByID nid = some n → n.authorID ≠ rid →
      updateChapter s nid cid rid t c p now = Except.error StoreErr.unauthorized) ∧
    (∀ s nid cid rid n, mapLookup s.novelsByID nid = some n → n.authorID ≠ rid →
      deleteChapter s nid cid rid = Except.error StoreErr.unauthorized) ∧
    (∀ s nid cid rid t c p now n, mapLookup s.novelsByID nid = some n → n.authorID = rid →
      (∀ ch, mapLookup s.chaptersByID cid = some ch → ch.novelID ≠ nid) →
      updateChapter s nid cid rid t c p now = Except.error StoreErr.notFound) ∧
    (∀ s nid cid rid n, mapLookup s.novelsByID nid = some n → n.authorID = rid →
      (∀ ch, mapLookup s.chaptersByID cid = some ch → ch.novelID ≠ nid) →
      deleteChapter s nid cid rid = Except.error StoreErr.notFound) ∧
    (∀ s nid cid rid n out, mapLookup s.novelsByID nid = some n →
      ¬(n.status ≠ novelPublished ∧ n.authorID ≠ rid) →
      (∀ ch ∈ chaptersGather s nid, ch.id ≠ cid) →
      chapterByIDRel s nid cid rid out → out = Except.error StoreErr.notFound) := by
  refine ⟨?_, ?_, ?_, ?_, ?_, ?_, ?_⟩
  · intro s nid cid rid t c p now hn
    unfold updateChapter
    simp only [hn]
  · intro s nid cid rid hn
    unfold deleteChapter
    simp only [hn]
  · intro s nid cid rid t c p now n hn hown
    unfold updateChapter
    simp only [hn]
    rw [if_pos hown]
  · intro s nid cid rid n hn hown
    unfold deleteChapter
    simp only [hn]
    rw [if_pos hown]
  · intro s nid cid rid t c p now n hn hown hch
    unfold updateChapter
    simp only [hn]
    rw [if_neg (by simp [hown])]
    split
    · rfl
    next ch hmc =>
      rw [if_pos (hch ch hmc)]
  · intro s nid cid rid n hn hown hch
    unfold deleteChapter
    simp only [hn]
    rw [if_neg (by simp [hown])]
    split
    · rfl
    next ch hmc =>
      rw [if_pos (hch ch hmc)]
  · intro s nid cid rid n out hn hvis hids hrel
    rcases hrel with ⟨e, hlist, rfl⟩ | ⟨l, hlist, rfl⟩
    · unfold listChaptersRel at hlist
      simp only [hn] at hlist
      rw [if_neg hvis] at hlist
      exact absurd hlist (by simp)
    · unfold listChaptersRel at hlist
      simp only [hn] at hlist
      rw [if_neg hvis] at hlist
      refine findChapter_notFound l cid ?_
      intro ch hch
      exact hids ch (hlist.1.mem_iff.mpr hch)

/-- Witness for C4 (amended): each branch exercised at a concrete
input. -/
theorem c4_amended_witness :
    updateChapter emptyStore 1 1 1 "" "" 0 0 = Except.error StoreErr.notFound ∧
    deleteChapter emptyStore 1 1 1 = Except.error StoreErr.notFound ∧
    updateChapter exPub 1 99 2 "t" "c" 1 9 = Except.error StoreErr.unauthorized ∧
    deleteChapter exPub 1 99 2 = Except.error StoreErr.unauthorized ∧
    updateChapter exPub 1 99 1 "t" "c" 1 9 = Except.error StoreErr.notFound ∧
    deleteChapter exPub 1 99 1 = Except.error StoreErr.notFound ∧
    (Except.error StoreErr.notFound : Except StoreErr Chapter) =
      Except.error StoreErr.notFound := by
  refine ⟨c4_amended.1 emptyStore 1 1 1 "" "" 0 0 (by decide),
    c4_amended.2.1 emptyStore 1 1 1 (by decide),
    c4_amended.2.2.1 exPub 1 99 2 "t" "c" 1 9 exPubNovel (by decide) (by decide),
    c4_amended.2.2.2.1 exPub 1 99 2 exPubNovel (by decide) (by decide),
    c4_amended.2.2.2.2.1 exPub 1 99 1 "t" "c" 1 9 exPubNovel (by decide) (by decide)
      (by decide),
    c4_amended.2.2.2.2.2.1 exPub 1 99 1 exPubNovel (by decide) (by decide) (by decide),
    c4_amended.2.2.2.2.2.2 exPub 1 99 0 exPubNovel (Except.error StoreErr.notFound)
      (by decide) (by decide) (by decide)
      (Or.inr ⟨[], ⟨by decide, List.chain'_nil⟩, rfl⟩)⟩

/-! ## Claim C3 -/

/-- Post-state of a successful delete operation (fallback never reached
in the uses below). -/
def okStateD (r : Except StoreErr StoreState) : StoreState :=
  match r with
  | .ok s => s
  | .error _ => emptyStore

/-- `exPubCh` plus a comment by user 2 on chapter 1. -/
def exC3a : StoreState := okState2 (createComment exPubCh 1 (some 1) 2 "hi" 3)

/-- `exC3a` after the author deletes chapter 1. -/
def exC3 : StoreState := okStateD (deleteChapter exC3a 1 1 1)

/-- The comment record created in `exC3a`. -/
def exComment1 : Comment :=
  { id := 1, novelID := 1, chapterID := some 1, userID := 2, body := "hi", createdAt := 3 }

theorem reach_exPub : Reachable exPub :=
  Reachable.cnovel emptyStore 1 "Sky" "d" "g" "published" 1 _ _ Reachable.empty rfl

theorem reach_exPubCh : Reachable exPubCh :=
  Reachable.cchapter exPub 1 1 "ch" "x" 3 2 _ _ reach_exPub rfl

theorem reach_exC3a : Reachable exC3a :=
  Reachable.ccomment exPubCh 1 (some 1) 2 "hi" 3 _ _ reach_exPubCh rfl

theorem reach_exC3 : Reachable exC3 :=
  Reachable.dchapter exC3a 1 1 1 _ reach_exC3a rfl

/-- Claim C3 (counterexample): a reachable state in which a comment
whose chapter id is set references a chapter that no longer exists.
The state arises from the empty store by creating a published novel, a
chapter, a comment on that chapter, and then deleting the chapter:
`DeleteChapter` (store.go lines 423-457) removes the chapter and clears
bookmarks but leaves comments untouched, so comment 1 keeps chapter id
1 while chapter 1 is gone. -/
theorem c3_dangling_comment :
    Reachable exC3 ∧
    mapLookup exC3.commentsByID 1 = some exComment1 ∧
    exComment1.chapterID = some 1 ∧
    mapLookup exC3.chaptersByID 1 = none :=
  ⟨reach_exC3, by decide, by decide, by decide⟩

/-- Claim C3 (amended): the chapter reference of a comment is validated
at creation time — `CreateComment` succeeds with a chapter id only when
that chapter exists and belongs to the stated novel — and `DeleteNovel`
cascades over comments, but `DeleteChapter` leaves the comment tables
untouched, so after a chapter deletion a remaining comment may
reference a chapter that no longer exists. -/
theorem c3_amended :
    (∀ s nid cid uid body now cm s',
      createComment s nid (some cid) uid body now = Except.ok (cm, s') →
      ∃ ch, mapLookup s.chaptersByID cid = some ch ∧ ch.novelID = nid) ∧
    (∀ s nid cid rid s', deleteChapter s nid cid rid = Except.ok s' →
      s'.commentsByID = s.commentsByID ∧ s'.commentIDsByNovel = s.commentIDsByNovel) := by
  constructor
  · intro s nid cid uid body now cm s' h
    simp only [createComment] at h
    split at h
    · exact absurd h (by simp)
    split at h
    · exact absurd h (by simp)
    split at h
    · exact absurd h (by simp)
    split at h
    · exact absurd h (by simp)
    next ch hch =>
      split at h
      · exact absurd h (by simp)
      next hnv =>
        rw [not_not] at hnv
        exact ⟨ch, hch, hnv⟩
  · intro s nid cid rid s' h
    simp only [deleteChapter] at h
    split at h
    · exact absurd h (by simp)
    split at h
    · exact absurd h (by simp)
    split at h
    · exact absurd h (by simp)
    split at h
    · exact absurd h (by simp)
    simp only [Except.ok.injEq] at h
    subst h
    exact ⟨rfl, rfl⟩

/-- Witness for C3 (amended) on the concrete trace behind the
counterexample. -/
theorem c3_amended_witness :
    (∃ ch, mapLookup exPubCh.chaptersByID 1 = some ch ∧ ch.novelID = 1) ∧
    (exC3.commentsByID = exC3a.commentsByID ∧
      exC3.commentIDsByNovel = exC3a.commentIDsByNovel) :=
  ⟨c3_amended.1 exPubCh 1 1 2 "hi" 3 exComment1 exC3a (by decide),
    c3_amended.2 exC3a 1 1 1 exC3 (by decide)⟩

/-! ## Claim C6 -/

/-- The total preorder on chapters by position. -/
def chapterOrder (a b : Chapter) : Prop := a.position ≤ b.position

instance : IsTotal Chapter chapterOrder :=
  ⟨fun a b => Int.le_total a.position b.position⟩

instance : IsTrans Chapter chapterOrder :=
  ⟨fun _ _ _ => Int.le_trans⟩

instance : DecidableRel chapterOrder :=
  fun a b => inferInstanceAs (Decidable (a.position ≤ b.position))

/-- Stability of a chapter listing relative to the gathered (insertion)
order: for every position, the equal-position chapters appear in the
same order as in the input. -/
def stableByPos (input output : List Chapter) : Prop :=
  ∀ p : Int, output.filter (fun c => c.position == p) =
    input.filter (fun c => c.position == p)

/-- `exPub` plus chapter 1 at position 1. -/
def exC6a : StoreState := okState2 (createChapter exPub 1 1 "a" "" 1 2)

/-- `exC6a` plus chapter 2, also at position 1 (created later). -/
def exC6 : StoreState := okState2 (createChapter exC6a 1 1 "b" "" 1 3)

/-- First-created chapter of `exC6`. -/
def exCh1 : Chapter :=
  { id := 1, novelID := 1, title := "a", content := "", position := 1,
    createdAt := 2, updatedAt := 2 }

/-- Second-created chapter of `exC6`. -/
def exCh2 : Chapter :=
  { id := 2, novelID := 1, title := "b", content := "", position := 1,
    createdAt := 3, updatedAt := 3 }

theorem reach_exC6a : Reachable exC6a :=
  Reachable.cchapter exPub 1 1 "a" "" 1 2 _ _ reach_exPub rfl

theorem reach_exC6 : Reachable exC6 :=
  Reachable.cchapter exC6a 1 1 "b" "" 1 3 _ _ reach_exC6a rfl

/-- Claim C6 (counterexample): `ListChapters` sorts with `sort.Slice`,
whose contract guarantees only a non-decreasing permutation — the Go
standard library documents the sort as not stable.  On a reachable
store whose novel has two chapters created at the same position, the
reversed order `[chapter 2, chapter 1]` is an admitted output of
`ListChapters`: it is a permutation of the gathered slice and
non-decreasing by position, yet it violates the claimed preservation of
the original insertion order for equal positions. -/
theorem c6_unstable :
    Reachable exC6 ∧
    chaptersGather exC6 1 = [exCh1, exCh2] ∧
    exCh1.position = exCh2.position ∧
    listChaptersRel exC6 1 1 (Except.ok [exCh2, exCh1]) ∧
    ¬ stableByPos (chaptersGather exC6 1) [exCh2, exCh1] := by
  refine ⟨reach_exC6, by decide, by decide, ?_, ?_⟩
  · exact (⟨by decide, List.chain'_pair.mpr (by decide)⟩ :
      sortSliceOK chapterLess (chaptersGather exC6 1) [exCh2, exCh1])
  · intro h
    exact absurd (h 1) (by decide)

/-- Claim C6 (amended): every chapter list `ListChapters` can return is
a permutation of the chapters gathered from the per-novel id list
(which records creation order) and is non-decreasing by position; the
relative order of equal-position chapters is not specified —
`sort.Slice` is documented as unstable, so preservation of insertion
order is not guaranteed. -/
theorem c6_amended (s : StoreState) (novelID requesterID : Int) (l : List Chapter)
    (h : listChaptersRel s novelID requesterID (Except.ok l)) :
    (chaptersGather s novelID).Perm l ∧
    List.Chain' (fun a b => a.position ≤ b.position) l := by
  unfold listChaptersRel at h
  split at h
  · exact absurd h (by simp)
  next n hn =>
    split at h
    · exact absurd h (by simp)
    · replace h : sortSliceOK chapterLess (chaptersGather s novelID) l := h
      refine ⟨h.1, ?_⟩
      refine List.Chain'.imp ?_ h.2
      intro a b hab
      simp only [chapterLess, decide_eq_false_iff_not, not_lt] at hab
      exact hab

/-- Witness for C6 (amended) at the two-chapter store, on the stable
output the contract also admits. -/
theorem c6_amended_witness :
    (chaptersGather exC6 1).Perm [exCh1, exCh2] ∧
    List.Chain' (fun a b : Chapter => a.position ≤ b.position) [exCh1, exCh2] :=
  c6_amended exC6 1 1 [exCh1, exCh2]
    (⟨by decide, List.chain'_pair.mpr (by decide)⟩ :
      sortSliceOK chapterLess (chaptersGather exC6 1) [exCh1, exCh2])

/-! ## Claim C8 -/

/-- Claim C8: cascading delete.  For every reachable state, after a
successful `DeleteNovel` of novel N: N is gone from the novels table;
no chapter or comment whose novel id is N remains in the entity tables;
the per-novel id lists for N are gone and every id left in any other
list resolves to an entity of that other novel; no bookmark referencing
N remains; and every subsequent read of N or its descendants
(`NovelByID`, `ListChapters`, `ListComments`, `ChapterByID`) fails with
the not-found error, for every requester. -/
theorem c8_cascade (s : StoreState) (hr : Reachable s) (nid rid : Int) (s' : StoreState)
    (h : deleteNovel s nid rid = Except.ok s') :
    mapLookup s'.novelsByID nid = none ∧
    (∀ cid ch, mapLookup s'.chaptersByID cid = some ch → ch.novelID ≠ nid) ∧
    mapLookup s'.chapterIDsByNovel nid = none ∧
    (∀ n' cid, cid ∈ (mapLookup s'.chapterIDsByNovel n').getD [] →
      n' ≠ nid ∧ ∃ ch, mapLookup s'.chaptersByID cid = some ch ∧ ch.novelID = n') ∧
    (∀ cmid cm, mapLookup s'.commentsByID cmid = some cm → cm.novelID ≠ nid) ∧
    mapLookup s'.commentIDsByNovel nid = none ∧
    (∀ n' cmid, cmid ∈ (mapLookup s'.commentIDsByNovel n').getD [] →
      n' ≠ nid ∧ ∃ cm, mapLookup s'.commentsByID cmid = some cm ∧ cm.novelID = n') ∧
    (∀ k b, (k, b) ∈ s'.bookmarks → b.novelID ≠ nid) ∧
    (∀ r, novelByID s' nid r = Except.error StoreErr.notFound) ∧
    (∀ r out, listChaptersRel s' nid r out → out = Except.error StoreErr.notFound) ∧
    (∀ r cf out, listCommentsRel s' nid r cf out → out = Except.error StoreErr.notFound) ∧
    (∀ r cid0 out, chapterByIDRel s' nid cid0 r out → out = Except.error StoreErr.notFound) := by
  have hinv := reachable_inv s hr
  have hinv' := inv_deleteNovel s nid rid s' hinv h
  simp only [deleteNovel] at h
  split at h
  · exact absurd h (by simp)
  next n hn =>
    split at h
    · exact absurd h (by simp)
    simp only [Except.ok.injEq] at h
    subst h
    have hnone : mapLookup (mapErase s.novelsByID nid) nid = none := by
      simp [mapLookup_erase]
    refine ⟨?_, ?_, ?_, ?_, ?_, ?_, ?_, ?_, ?_, ?_, ?_, ?_⟩ <;> dsimp only
    · exact hnone
    · intro cid ch hch
      rw [mapLookup_removeKeys] at hch
      split at hch
      · exact absurd hch (by simp)
      next hnotin =>
        intro heq
        have hold := hinv.chapterListed cid ch hch
        rw [heq] at hold
        exact hnotin hold
    · simp [mapLookup_erase]
    · intro n' cid hmem
      have hne : n' ≠ nid := by
        intro heq
        subst heq
        rw [mapLookup_erase, if_pos rfl] at hmem
        simp at hmem
      exact ⟨hne, hinv'.chapterSound n' cid hmem⟩
    · intro cmid cm hcm
      rw [mapLookup_removeKeys] at hcm
      split at hcm
      · exact absurd hcm (by simp)
      next hnotin =>
        intro heq
        have hold := hinv.commentListed cmid cm hcm
        rw [heq] at hold
        exact hnotin hold
    · simp [mapLookup_erase]
    · intro n' cmid hmem
      have hne : n' ≠ nid := by
        intro heq
        subst heq
        rw [mapLookup_erase, if_pos rfl] at hmem
        simp at hmem
      exact ⟨hne, hinv'.commentSound n' cmid hmem⟩
    · intro k b hkb
      have hp := (List.mem_filter.mp hkb).2
      simpa using hp
    · intro r
      unfold novelByID
      rw [hnone]
    · intro r out hrel
      unfold listChaptersRel at hrel
      dsimp only at hrel
      rw [hnone] at hrel
      exact hrel
    · intro r cf out hrel
      unfold listCommentsRel at hrel
      dsimp only at hrel
      rw [hnone] at hrel
      exact hrel
    · intro r cid0 out hrel
      rcases hrel with ⟨e, hlist, rfl⟩ | ⟨l, hlist, rfl⟩
      · unfold listChaptersRel at hlist
        dsimp only at hlist
        rw [hnone] at hlist
        simpa using hlist
      · unfold listChaptersRel at hlist
        dsimp only at hlist
        rw [hnone] at hlist
        simp at hlist

/-- Post-state of deleting novel 1 from the chapter-and-comment store
`exC3a` (novel 1, chapter 1, comment 1). -/
def exC8 : StoreState := okStateD (deleteNovel exC3a 1 1)

/-- Witness for C8 on the concrete store with a novel, a chapter and a
comment. -/
theorem c8_cascade_witness :
    mapLookup exC8.novelsByID 1 = none ∧
    mapLookup exC8.chapterIDsByNovel 1 = none ∧
    mapLookup exC8.commentIDsByNovel 1 = none := by
  have h := c8_cascade exC3a reach_exC3a 1 1 exC8 (by decide)
  exact ⟨h.1, h.2.2.1, h.2.2.2.2.2.1⟩

/-! ## Claim C9 -/

theorem mapLookup_mem [DecidableEq K] (m : List (K × V)) (k : K) (v : V)
    (h : mapLookup m k = some v) : (k, v) ∈ m := by
  induction m with
  | nil => simp at h
  | cons kv rest ih =>
    obtain ⟨k1, v1⟩ := kv
    by_cases hk : k = k1
    · subst hk
      rw [mapLookup_cons, if_pos rfl] at h
      injection h with h
      exact h ▸ List.mem_cons_self _ _
    · rw [mapLookup_cons, if_neg hk] at h
      exact List.mem_cons_of_mem _ (ih h)

/-- In a bookmark table whose keys are derived from the record pairs
and duplicate-free, the binding found at `bookmarkKey u nid` is the
only record for the pair `(u, nid)`. -/
theorem pairFilter_length (m : List (String × Bookmark)) (u nid : Int) (b : Bookmark)
    (hnodup : (m.map Prod.fst).Nodup)
    (hkeys : ∀ k b0, (k, b0) ∈ m → k = bookmarkKey b0.userID b0.novelID)
    (hlook : mapLookup m (bookmarkKey u nid) = some b)
    (hu : b.userID = u) (hn : b.novelID = nid) :
    (m.filter (fun kv => kv.2.userID == u && kv.2.novelID == nid)).length = 1 := by
  induction m with
  | nil => simp at hlook
  | cons kv rest ih =>
    obtain ⟨k1, b1⟩ := kv
    simp only [List.map_cons, List.nodup_cons] at hnodup
    by_cases hk : bookmarkKey u nid = k1
    · rw [mapLookup_cons, if_pos hk] at hlook
      injection hlook with hlook
      subst hlook
      have hrest : rest.filter (fun kv => kv.2.userID == u && kv.2.novelID == nid) = [] := by
        refine List.filter_eq_nil_iff.mpr ?_
        intro kv hkv hp
        simp only [Bool.and_eq_true, beq_iff_eq] at hp
        have hkey := hkeys kv.1 kv.2 (List.mem_cons_of_mem _ (by simpa using hkv))
        rw [hp.1, hp.2, hk] at hkey
        exact hnodup.1 (List.mem_map.mpr ⟨kv, hkv, hkey⟩)
      rw [List.filter_cons]
      rw [if_pos (by simp [hu, hn])]
      simp [hrest]
    · rw [mapLookup_cons, if_neg hk] at hlook
      rw [List.filter_cons]
      rw [if_neg ?hpred]
      case hpred =>
        intro hp
        simp only [Bool.and_eq_true, beq_iff_eq] at hp
        have hkey := hkeys k1 b1 (List.mem_cons_self _ _)
        rw [hp.1, hp.2] at hkey
        exact hk hkey.symm
      exact ih hnodup.2 (fun k b0 hb0 => hkeys k b0 (List.mem_cons_of_mem _ hb0)) hlook

/-- `UpdateChapter` never touches the bookmark table. -/
theorem updateChapter_bookmarks (s : StoreState) (novelID chapterID requesterID : Int)
    (title content : String) (position : Int) (now : Nat) (ch : Chapter) (s' : StoreState)
    (h : updateChapter s novelID chapterID requesterID title content position now =
      Except.ok (ch, s')) : s'.bookmarks = s.bookmarks := by
  simp only [updateChapter] at h
  split at h
  · exact absurd h (by simp)
  · split at h
    · exact absurd h (by simp)
    split at h
    · exact absurd h (by simp)
    · split at h
      · exact absurd h (by simp)
      · simp only [Except.ok.injEq, Prod.mk.injEq] at h
        obtain ⟨rfl, rfl⟩ := h
        rfl

/-- Claim C9: bookmark upsert.  On a reachable state, after two
successful upserts for the same (user, novel) pair the store holds
exactly one bookmark record for that pair, found at the derived key and
equal to the second result: its fields are the user, novel and the
chapter reference and update time of the second call; when that call supplies
a chapter id, that chapter was validated to belong to the novel and its
position at upsert time was copied into the record; and a later
`UpdateChapter` (for example a repositioning) leaves the bookmark table
unchanged. -/
theorem c9_bookmark_upsert (s : StoreState) (hr : Reachable s) (u nid : Int)
    (cid1 cid2 : Option Int) (now1 now2 : Nat) (b1 : Bookmark) (s1 : StoreState)
    (b2 : Bookmark) (s2 : StoreState)
    (h1 : upsertBookmark s u nid cid1 now1 = Except.ok (b1, s1))
    (h2 : upsertBookmark s1 u nid cid2 now2 = Except.ok (b2, s2)) :
    (s2.bookmarks.filter (fun kv => kv.2.userID == u && kv.2.novelID == nid)).length = 1 ∧
    mapLookup s2.bookmarks (bookmarkKey u nid) = some b2 ∧
    b2.userID = u ∧ b2.novelID = nid ∧ b2.chapterID = cid2 ∧ b2.updatedAt = now2 ∧
    (∀ cid, cid2 = some cid →
      ∃ ch, mapLookup s1.chaptersByID cid = some ch ∧ ch.novelID = nid ∧
        b2.chapterPos = some ch.position) ∧
    (cid2 = none → b2.chapterPos = none) ∧
    (∀ nid' cid' rid t c p now ch' s3,
      updateChapter s2 nid' cid' rid t c p now = Except.ok (ch', s3) →
      s3.bookmarks = s2.bookmarks) := by
  have hr2 : Reachable s2 :=
    Reachable.ubookmark s1 u nid cid2 now2 b2 s2
      (Reachable.ubookmark s u nid cid1 now1 b1 s1 hr h1) h2
  have hinv2 := reachable_inv s2 hr2
  simp only [upsertBookmark] at h2
  split at h2
  · exact absurd h2 (by simp)
  next n hn =>
    split at h2
    · exact absurd h2 (by simp)
    split at h2
    next cid =>
      split at h2
      · exact absurd h2 (by simp)
      next ch hch =>
        split at h2
        · exact absurd h2 (by simp)
        next hnv =>
          rw [not_not] at hnv
          simp only [Except.ok.injEq, Prod.mk.injEq] at h2
          obtain ⟨rfl, rfl⟩ := h2
          refine ⟨?_, mapLookup_insert_self _ _ _, rfl, rfl, rfl, rfl, ?_, ?_, ?_⟩
          · exact pairFilter_length _ u nid _ hinv2.bookmarkNodup hinv2.bookmarkKeys
              (mapLookup_insert_self _ _ _) rfl rfl
          · intro cid0 hcid
            injection hcid with hcid
            subst hcid
            exact ⟨ch, hch, hnv, rfl⟩
          · intro hcid
            exact absurd hcid (by simp)
          · intro nid' cid' rid t c p now ch' s3 hup
            exact updateChapter_bookmarks _ nid' cid' rid t c p now ch' s3 hup
    next =>
      simp only [Except.ok.injEq, Prod.mk.injEq] at h2
      obtain ⟨rfl, rfl⟩ := h2
      refine ⟨?_, mapLookup_insert_self _ _ _, rfl, rfl, rfl, rfl, ?_, ?_, ?_⟩
      · exact pairFilter_length _ u nid _ hinv2.bookmarkNodup hinv2.bookmarkKeys
          (mapLookup_insert_self _ _ _) rfl rfl
      · intro cid0 hcid
        exact absurd hcid (by simp)
      · intro _
        rfl
      · intro nid' cid' rid t c p now ch' s3 hup
        exact updateChapter_bookmarks _ nid' cid' rid t c p now ch' s3 hup

/-- Bookmark produced by the first upsert of the C9 witness trace. -/
def exB1 : Bookmark :=
  { userID := 2, novelID := 1, chapterID := some 1, updatedAt := 4, chapterPos := some 3 }

/-- Store after user 2 bookmarks novel 1 at chapter 1. -/
def exS3 : StoreState := okState2 (upsertBookmark exPubCh 2 1 (some 1) 4)

/-- Bookmark produced by the second upsert of the C9 witness trace. -/
def exB2 : Bookmark :=
  { userID := 2, novelID := 1, chapterID := some 1, updatedAt := 5, chapterPos := some 3 }

/-- Store after the second upsert for the same (user, novel) pair. -/
def exS4 : StoreState := okState2 (upsertBookmark exS3 2 1 (some 1) 5)

/-- Witness for C9 on the concrete double-upsert trace. -/
theorem c9_bookmark_upsert_witness :
    (exS4.bookmarks.filter (fun kv => kv.2.userID == 2 && kv.2.novelID == 1)).length = 1 ∧
    mapLookup exS4.bookmarks (bookmarkKey 2 1) = some exB2 := by
  have h := c9_bookmark_upsert exPubCh reach_exPubCh 2 1 (some 1) (some 1) 4 5 exB1 exS3
    exB2 exS4 (by decide) (by decide)
  exact ⟨h.1, h.2.1⟩
